import Mathlib

/-!
Verification of the interview-progress graph core of the Narrative-Planner
repository: the `ThemeNode` / `EventNode` entity model
(`core/theme_node.py`, `core/event_node.py`), the catalog loader
(`core/theme_loader.py`) and the `GraphManager` orchestrator
(`core/graph_manager.py`).

Conventions of the embedding:
* Python `dict`s (insertion-ordered, insert-or-replace keeps the original
  position) are modelled as association lists `List (String × α)` with
  `dictInsert` / `dictGet?`.
* Python `float` ratios are modelled as exact rationals `ℚ`.
* `datetime` values are modelled as abstract `Nat` timestamps; operations
  that call `datetime.now()` take the current timestamp as an argument.
* File I/O in checkpoint save/load is modelled by explicit outcome
  environments (`SaveEnv` / `LoadEnv`): each read either yields the parsed
  value or fails, each write either succeeds or fails; a propagated Python
  exception is an `Except.error`.
* The `use_networkx = False` ("simple in-memory structure") branch of
  `GraphManager` is the one embedded; the theme/event bookkeeping, which is
  what the claims are about, is identical in both branches.
* The opaque `trigger_logic` / `metadata` payloads of `ThemeNode` (never
  serialized by `to_dict` and irrelevant to every claim) are omitted.
-/

namespace NarrativePlanner

/-- Node lifecycle states, from `core/node_status.py` (`NodeStatus`). -/
inductive NodeStatus where
  | pending
  | mentioned
  | exhausted
deriving DecidableEq, Repr

/-- String value of a status, mirroring the Python enum `.value`. -/
def NodeStatus.value : NodeStatus → String
  | .pending => "pending"
  | .mentioned => "mentioned"
  | .exhausted => "exhausted"

/-- The six thematic domains, from `core/node_status.py` (`Domain`). -/
inductive Domain where
  | life_chapters
  | key_scenes
  | future_scripts
  | challenges
  | personal_ideology
  | context_management
deriving DecidableEq, Repr

/-- Resolution of a catalog domain key against the closed `Domain` enum,
mirroring `Domain(domain_id)` which raises `ValueError` (here: `none`) on an
unknown key. -/
def Domain.fromString? : String → Option Domain
  | "life_chapters" => some .life_chapters
  | "key_scenes" => some .key_scenes
  | "future_scripts" => some .future_scripts
  | "challenges" => some .challenges
  | "personal_ideology" => some .personal_ideology
  | "context_management" => some .context_management
  | _ => none

/-- Insert-or-replace on an association list: replaces the value at the first
occurrence of the key, keeping its position, otherwise appends — exactly the
behaviour of assignment `d[k] = v` on a Python dict. -/
def dictInsert {α : Type} (m : List (String × α)) (k : String) (v : α) :
    List (String × α) :=
  match m with
  | [] => [(k, v)]
  | p :: rest => if p.1 = k then (k, v) :: rest else p :: dictInsert rest k v

/-- Lookup of the first binding of a key, the behaviour of `d.get(k)`. -/
def dictGet? {α : Type} (m : List (String × α)) (k : String) : Option α :=
  match m with
  | [] => none
  | p :: rest => if p.1 = k then some p.2 else dictGet? rest k

theorem dictGet?_insert_self {α : Type} (m : List (String × α)) (k : String)
    (v : α) : dictGet? (dictInsert m k v) k = some v := by
  induction m with
  | nil => simp [dictInsert, dictGet?]
  | cons p rest ih =>
    obtain ⟨a, b⟩ := p
    by_cases h : a = k
    · simp [dictInsert, dictGet?, h]
    · simp [dictInsert, dictGet?, h, ih]

theorem dictGet?_insert_ne {α : Type} (m : List (String × α)) {k k' : String}
    (v : α) (h : k' ≠ k) : dictGet? (dictInsert m k v) k' = dictGet? m k' := by
  induction m with
  | nil => simp [dictInsert, dictGet?, Ne.symm h]
  | cons p rest ih =>
    obtain ⟨a, b⟩ := p
    by_cases hp : a = k
    · subst hp
      simp [dictInsert, dictGet?, Ne.symm h]
    · simp [dictInsert, dictGet?, hp, ih]

theorem dictGet?_mem {α : Type} {m : List (String × α)} {k : String} {v : α}
    (h : dictGet? m k = some v) : (k, v) ∈ m := by
  induction m with
  | nil => simp [dictGet?] at h
  | cons p rest ih =>
    obtain ⟨a, b⟩ := p
    by_cases hp : a = k
    · rw [dictGet?] at h
      simp only [hp, if_pos] at h
      injection h with hv
      subst hp
      subst hv
      exact List.mem_cons_self _ _
    · rw [dictGet?] at h
      simp only [hp, ite_false, if_neg, not_false_iff] at h
      exact List.mem_cons_of_mem _ (ih h)

/-- The keys of an association list, in order. -/
def dictKeys {α : Type} (m : List (String × α)) : List String :=
  m.map Prod.fst

theorem dictKeys_insert {α : Type} (m : List (String × α)) (k : String)
    (v : α) :
    dictKeys (dictInsert m k v) = dictKeys m ∨
      dictKeys (dictInsert m k v) = dictKeys m ++ [k] := by
  induction m with
  | nil => right; simp [dictInsert, dictKeys]
  | cons p rest ih =>
    obtain ⟨a, b⟩ := p
    by_cases hp : a = k
    · left; simp [dictInsert, dictKeys, hp]
    · rcases ih with h | h
      · left
        simp only [dictInsert, hp, ite_false, if_neg, not_false_iff, dictKeys,
          List.map_cons]
        rw [show List.map Prod.fst (dictInsert rest k v) = dictKeys (dictInsert rest k v) from rfl, h]
        rfl
      · right
        simp only [dictInsert, hp, ite_false, if_neg, not_false_iff, dictKeys,
          List.map_cons]
        rw [show List.map Prod.fst (dictInsert rest k v) = dictKeys (dictInsert rest k v) from rfl, h]
        rfl

theorem dictKeys_nodup_insert {α : Type} {m : List (String × α)} {k : String}
    {v : α} (hnd : (dictKeys m).Nodup) (hget : dictGet? m k = none) :
    (dictKeys (dictInsert m k v)).Nodup := by
  induction m with
  | nil => simp [dictInsert, dictKeys]
  | cons p rest ih =>
    obtain ⟨a, b⟩ := p
    by_cases hp : a = k
    · simp [dictGet?, hp] at hget
    · rw [dictGet?] at hget
      simp only [hp, ite_false, if_neg, not_false_iff] at hget
      simp only [dictKeys, List.map_cons, List.nodup_cons] at hnd
      have hrest := ih hnd.2 hget
      simp only [dictInsert, hp, ite_false, if_neg, not_false_iff, dictKeys,
        List.map_cons, List.nodup_cons]
      refine ⟨?_, hrest⟩
      intro hmem
      rcases dictKeys_insert rest k v with h | h
      · have hmem2 : a ∈ dictKeys (dictInsert rest k v) := hmem
        rw [h] at hmem2
        exact hnd.1 hmem2
      · have hmem2 : a ∈ dictKeys (dictInsert rest k v) := hmem
        rw [h] at hmem2
        rcases List.mem_append.mp hmem2 with h1 | h1
        · exact hnd.1 (by simpa [dictKeys] using h1)
        · simp at h1
          exact hp h1

theorem dictGet?_of_mem_nodup {α : Type} {m : List (String × α)} {k : String}
    {v : α} (hnd : (dictKeys m).Nodup) (hmem : (k, v) ∈ m) :
    dictGet? m k = some v := by
  induction m with
  | nil => simp at hmem
  | cons p rest ih =>
    obtain ⟨a, b⟩ := p
    simp only [dictKeys, List.map_cons, List.nodup_cons] at hnd
    rcases List.mem_cons.mp hmem with h | h
    · injection h with h1 h2
      subst h1
      subst h2
      simp [dictGet?]
    · have hk : a ≠ k := by
        intro hk
        subst hk
        exact hnd.1 (by simpa [dictKeys] using List.mem_map_of_mem Prod.fst h)
      simp [dictGet?, hk, ih hnd.2 h]

/-- The `ThemeNode` dataclass of `core/theme_node.py`. `datetime` fields are
abstract `Nat` timestamps; the opaque `trigger_logic` and `metadata` payloads
are omitted (never serialized, irrelevant to the claims). -/
structure ThemeNode where
  theme_id : String
  domain : Domain
  title : String
  description : String
  seed_questions : List String := []
  current_question_index : Nat := 0
  status : NodeStatus := .pending
  exploration_depth : Int := 0
  slots_filled : List (String × Bool) := []
  extracted_events : List String := []
  priority : Int := 5
  depends_on : List String := []
  created_at : Nat := 0
  first_mentioned_at : Option Nat := none
  exhausted_at : Option Nat := none
deriving DecidableEq, Repr

/-- `ThemeNode.mark_mentioned`: PENDING→MENTIONED, recording the first-mention
timestamp; anything else is left untouched. -/
def ThemeNode.mark_mentioned (n : ThemeNode) (now : Nat) : ThemeNode :=
  if n.status = NodeStatus.pending then
    { n with status := NodeStatus.mentioned, first_mentioned_at := some now }
  else n

/-- `ThemeNode.mark_exhausted`: unconditionally forces EXHAUSTED and records
the completion timestamp. -/
def ThemeNode.mark_exhausted (n : ThemeNode) (now : Nat) : ThemeNode :=
  { n with status := NodeStatus.exhausted, exhausted_at := some now }

/-- `ThemeNode.get_completion_ratio`: slot fill rate when some slot is filled,
otherwise `min(depth / 5, 1)`. -/
def ThemeNode.get_completion_ratio (n : ThemeNode) : ℚ :=
  if n.slots_filled.isEmpty then min ((n.exploration_depth : ℚ) / 5) 1
  else
    let filled := (n.slots_filled.filter (fun p => p.2)).length
    let total := n.slots_filled.length
    if 0 < filled then (filled : ℚ) / (total : ℚ)
    else min ((n.exploration_depth : ℚ) / 5) 1

/-- `ThemeNode.is_ready_to_explore`: true when there are no dependencies;
with dependencies, fails closed without a graph state, else demands every
dependency be present and EXHAUSTED. -/
def ThemeNode.is_ready_to_explore (n : ThemeNode)
    (graph_state : Option (List (String × ThemeNode))) : Bool :=
  if n.depends_on.isEmpty then true
  else
    match graph_state with
    | none => false
    | some g =>
      n.depends_on.all fun dep =>
        match dictGet? g dep with
        | some d => decide (d.status = NodeStatus.exhausted)
        | none => false

/-- `ThemeNode.get_next_seed_question`: the question under the cursor plus the
node with the cursor advanced, or `none` once the cursor is past the end. -/
def ThemeNode.get_next_seed_question (n : ThemeNode) :
    Option String × ThemeNode :=
  if h : n.current_question_index < n.seed_questions.length then
    (some (n.seed_questions.get ⟨n.current_question_index, h⟩),
      { n with current_question_index := n.current_question_index + 1 })
  else (none, n)

/-- `ThemeNode.reset_question_index`. -/
def ThemeNode.reset_question_index (n : ThemeNode) : ThemeNode :=
  { n with current_question_index := 0 }

/-- `ThemeNode.has_more_questions`. -/
def ThemeNode.has_more_questions (n : ThemeNode) : Bool :=
  n.current_question_index < n.seed_questions.length

/-- `ThemeNode.increment_depth`: `depth = min(depth + 1, 5)`. -/
def ThemeNode.increment_depth (n : ThemeNode) : ThemeNode :=
  { n with exploration_depth := min (n.exploration_depth + 1) 5 }

/-- `ThemeNode.update_slot`. -/
def ThemeNode.update_slot (n : ThemeNode) (slot_name : String)
    (filled : Bool) : ThemeNode :=
  { n with slots_filled := dictInsert n.slots_filled slot_name filled }

/-- `ThemeNode.add_extracted_event`: deduplicating append. -/
def ThemeNode.add_extracted_event (n : ThemeNode) (event_id : String) :
    ThemeNode :=
  if event_id ∈ n.extracted_events then n
  else { n with extracted_events := n.extracted_events ++ [event_id] }

/-- The structured record produced by `ThemeNode.to_dict` and consumed by
`ThemeNode.from_dict`. A field the dict may lack is an `Option`; the four
required identity fields are plain. Note that the Python `to_dict` emits
`extracted_events_count` but no `extracted_events` list and no
`current_question_index`. -/
structure ThemeRecord where
  theme_id : String
  domain : Domain
  title : String
  description : String
  seed_questions : Option (List String) := none
  status : Option NodeStatus := none
  exploration_depth : Option Int := none
  slots_filled : Option (List (String × Bool)) := none
  extracted_events_count : Option Nat := none
  priority : Option Int := none
  depends_on : Option (List String) := none
  completion_ratio : Option ℚ := none
  created_at : Option Nat := none
  first_mentioned_at : Option Nat := none
  exhausted_at : Option Nat := none
  extracted_events : Option (List String) := none
deriving DecidableEq, Repr

/-- `ThemeNode.to_dict`, field for field. -/
def ThemeNode.to_dict (n : ThemeNode) : ThemeRecord :=
  { theme_id := n.theme_id
    domain := n.domain
    title := n.title
    description := n.description
    seed_questions := some n.seed_questions
    status := some n.status
    exploration_depth := some n.exploration_depth
    slots_filled := some n.slots_filled
    extracted_events_count := some n.extracted_events.length
    priority := some n.priority
    depends_on := some n.depends_on
    completion_ratio := some n.get_completion_ratio
    created_at := some n.created_at
    first_mentioned_at := n.first_mentioned_at
    exhausted_at := n.exhausted_at
    extracted_events := none }

/-- `ThemeNode.from_dict`: documented defaults for missing optional fields;
`created_at` falls back to the current time; the cursor is never read (the
dataclass default 0 applies); the extracted-events list is restored only when
present and non-empty. -/
def ThemeNode.from_dict (r : ThemeRecord) (now : Nat) : ThemeNode :=
  let node : ThemeNode :=
    { theme_id := r.theme_id
      domain := r.domain
      title := r.title
      description := r.description
      seed_questions := r.seed_questions.getD []
      current_question_index := 0
      status := r.status.getD NodeStatus.pending
      exploration_depth := r.exploration_depth.getD 0
      slots_filled := r.slots_filled.getD []
      extracted_events := []
      priority := r.priority.getD 5
      depends_on := r.depends_on.getD []
      created_at := r.created_at.getD now
      first_mentioned_at := r.first_mentioned_at
      exhausted_at := r.exhausted_at }
  match r.extracted_events with
  | some evs => if evs.isEmpty then node else { node with extracted_events := evs }
  | none => node

/-- The `EventNode` dataclass of `core/event_node.py`. Float scores are exact
rationals, `datetime` is an abstract `Nat` timestamp. -/
structure EventNode where
  event_id : String
  theme_id : String
  title : String
  description : String
  time_anchor : Option String := none
  location : Option String := none
  people_involved : List String := []
  slots : List (String × Option String) := []
  emotional_score : ℚ := 0
  information_density : ℚ := 0
  depth_level : Int := 0
  related_events : List String := []
  created_at : Nat := 0
deriving DecidableEq, Repr

/-- The default 7-key slot map seeded by `EventNode.__post_init__`. -/
def defaultSlots : List (String × Option String) :=
  [("time", none), ("location", none), ("people", none), ("cause", none),
    ("result", none), ("emotion", none), ("reflection", none)]

/-- `EventNode.__post_init__`: generates an id when none was supplied (the
fresh uuid-based id is a parameter here) and seeds the default slot map when
the supplied one is empty. -/
def EventNode.postInit (e : EventNode) (freshId : String) : EventNode :=
  let e1 := if e.event_id = "" then { e with event_id := freshId } else e
  if e1.slots.isEmpty then { e1 with slots := defaultSlots } else e1

/-- `EventNode.get_slot_completion_ratio`: filled slots over total, 0 for an
empty map. -/
def EventNode.get_slot_completion_ratio (e : EventNode) : ℚ :=
  if e.slots.isEmpty then 0
  else
    ((e.slots.filter (fun p => p.2.isSome)).length : ℚ) / (e.slots.length : ℚ)

/-- `EventNode.update_slot`: stores the string form of the value under the
name, known or not (both Python branches do the same thing). -/
def EventNode.update_slot (e : EventNode) (slot_name : String)
    (value : Option String) : EventNode :=
  { e with slots := dictInsert e.slots slot_name value }

/-- `EventNode.add_person`: deduplicating insert, no-op on the empty name. -/
def EventNode.add_person (e : EventNode) (person_name : String) : EventNode :=
  if person_name ≠ "" ∧ person_name ∉ e.people_involved then
    { e with people_involved := e.people_involved ++ [person_name] }
  else e

/-- `EventNode.increment_depth`: `depth = min(depth + 1, 5)`. -/
def EventNode.increment_depth (e : EventNode) : EventNode :=
  { e with depth_level := min (e.depth_level + 1) 5 }

/-- `EventNode.is_exhausted`: depth ≥ 4 or slot fill ratio ≥ 0.8. -/
def EventNode.is_exhausted (e : EventNode) : Bool :=
  decide (4 ≤ e.depth_level) || decide ((8 : ℚ) / 10 ≤ e.get_slot_completion_ratio)

/-- `EventNode.add_related_event`: deduplicating append. -/
def EventNode.add_related_event (e : EventNode) (event_id : String) :
    EventNode :=
  if event_id ∈ e.related_events then e
  else { e with related_events := e.related_events ++ [event_id] }

/-- The structured record produced by `EventNode.to_dict` and consumed by
`EventNode.from_dict`. -/
structure EventRecord where
  event_id : String
  theme_id : String
  title : String
  description : String
  time_anchor : Option String := none
  location : Option String := none
  people_involved : Option (List String) := none
  slots : Option (List (String × Option String)) := none
  emotional_score : Option ℚ := none
  information_density : Option ℚ := none
  depth_level : Option Int := none
  slot_completion_ratio : Option ℚ := none
  related_events : Option (List String) := none
  is_exhausted : Option Bool := none
  created_at : Option Nat := none
deriving DecidableEq, Repr

/-- `EventNode.to_dict`, field for field. -/
def EventNode.to_dict (e : EventNode) : EventRecord :=
  { event_id := e.event_id
    theme_id := e.theme_id
    title := e.title
    description := e.description
    time_anchor := e.time_anchor
    location := e.location
    people_involved := some e.people_involved
    slots := some e.slots
    emotional_score := some e.emotional_score
    information_density := some e.information_density
    depth_level := some e.depth_level
    slot_completion_ratio := some e.get_slot_completion_ratio
    related_events := some e.related_events
    is_exhausted := some (EventNode.is_exhausted e)
    created_at := some e.created_at }

/-- `EventNode.from_dict`: defaults for the missing optional fields, then the
dataclass construction runs `__post_init__` (id generation and default slot
seeding). -/
def EventNode.from_dict (r : EventRecord) (now : Nat) (freshId : String) :
    EventNode :=
  EventNode.postInit
    { event_id := r.event_id
      theme_id := r.theme_id
      title := r.title
      description := r.description
      time_anchor := r.time_anchor
      location := r.location
      people_involved := r.people_involved.getD []
      slots := r.slots.getD []
      emotional_score := r.emotional_score.getD 0
      information_density := r.information_density.getD 0
      depth_level := r.depth_level.getD 0
      related_events := r.related_events.getD []
      created_at := r.created_at.getD now }
    freshId

/-- One theme definition of the external catalog (`mcadams_themes.json`),
as read by `ThemeLoader._create_theme_node`. The opaque `trigger_logic` and
the metadata-only `expected_depth` are omitted. -/
structure ThemeDef where
  theme_id : String
  title : String
  description : String
  seed_questions : Option (List String) := none
  priority : Option Int := none
  depends_on : Option (List String) := none
  slots : Option (List String) := none
deriving DecidableEq, Repr

/-- One domain entry of the catalog: its (possibly missing) theme list. -/
structure DomainData where
  themes : Option (List ThemeDef) := none
deriving DecidableEq, Repr

/-- The parsed theme catalog: the top-level `domains` mapping. -/
structure Catalog where
  domains : List (String × DomainData) := []
deriving DecidableEq, Repr

/-- `ThemeLoader._create_theme_node`: a fresh PENDING node with the documented
defaults and an all-false slot map built from the declared slot names. -/
def createThemeNode (td : ThemeDef) (dom : Domain) (now : Nat) : ThemeNode :=
  { theme_id := td.theme_id
    domain := dom
    title := td.title
    description := td.description
    seed_questions := td.seed_questions.getD []
    status := NodeStatus.pending
    priority := td.priority.getD 5
    depends_on := td.depends_on.getD []
    slots_filled := (td.slots.getD []).foldl (fun acc s => dictInsert acc s false) []
    created_at := now }

/-- Accumulation of one domain entry's processable definitions. -/
def defStep (acc : List (Domain × ThemeDef)) (p : String × DomainData) :
    List (Domain × ThemeDef) :=
  match Domain.fromString? p.1 with
  | none => acc
  | some dom => acc ++ (p.2.themes.getD []).map (fun td => (dom, td))

/-- The domain–definition pairs the loader actually processes, in order:
definitions under an unresolvable domain key are skipped. -/
def catalogDefs (c : Catalog) : List (Domain × ThemeDef) :=
  c.domains.foldl defStep []

/-- `ThemeLoader.load` on an already-parsed catalog (a missing or unparseable
catalog file raises before this loop and is outside this model): walks the
domains, skips unresolvable domain keys, and stores each constructed node
under its `theme_id` — a later definition with the same id overwrites an
earlier one. -/
def ThemeLoader.load (c : Catalog) (now : Nat) : List (String × ThemeNode) :=
  c.domains.foldl
    (fun acc p =>
      match Domain.fromString? p.1 with
      | none => acc
      | some dom =>
        (p.2.themes.getD []).foldl
          (fun acc2 td => dictInsert acc2 td.theme_id (createThemeNode td dom now))
          acc)
    []

/-- Payload of a graph node: the serialized record stored under `data`. -/
inductive NodePayload where
  | themeData (d : ThemeRecord)
  | eventData (d : EventRecord)
deriving DecidableEq, Repr

/-- Write of `data["status"] = status.value` by `_update_node_status`. The
method is only ever called with theme ids, so on a theme payload it updates
the record's status field; on an event payload the Python write would merely
add a key no reader consumes, which the embedding drops. -/
def NodePayload.setStatus (p : NodePayload) (st : NodeStatus) : NodePayload :=
  match p with
  | .themeData d => .themeData { d with status := some st }
  | .eventData d => .eventData d

/-- Write of `data["depth_level"] = depth` by `update_event_depth`; only event
payloads carry that key (see `NodePayload.setStatus` for the converse case). -/
def NodePayload.setDepth (p : NodePayload) (depth : Int) : NodePayload :=
  match p with
  | .themeData d => .themeData d
  | .eventData d => .eventData { d with depth_level := some depth }

/-- One entry of `graph["nodes"]` in the simple in-memory representation. -/
structure GNode where
  node_type : String
  status : String
  data : NodePayload
deriving DecidableEq, Repr

/-- The simple (`use_networkx = False`) graph representation:
`{"nodes": {...}, "edges": {...}}`. -/
structure GraphData where
  nodes : List (String × GNode) := []
  edges : List (String × List String) := []
deriving DecidableEq, Repr

/-- `edges[src].append(dst)` after creating the list when absent
(the `_initialize_graph` dependency-edge site, which never deduplicates). -/
def pushEdge (es : List (String × List String)) (src dst : String) :
    List (String × List String) :=
  match dictGet? es src with
  | some lst => dictInsert es src (lst ++ [dst])
  | none => dictInsert es src [dst]

/-- The `add_event_node` containment-edge site: like `pushEdge` but skipping
a destination already present. -/
def pushEdgeDedup (es : List (String × List String)) (src dst : String) :
    List (String × List String) :=
  match dictGet? es src with
  | some lst => if dst ∈ lst then es else dictInsert es src (lst ++ [dst])
  | none => dictInsert es src [dst]

/-- The `GraphManager` state: the backing graph plus the live theme and event
collections. -/
structure GraphManager where
  graph : GraphData
  theme_nodes : List (String × ThemeNode)
  event_nodes : List (String × EventNode)
deriving DecidableEq, Repr

/-- `GraphManager._initialize_graph` (and with it construction): one "theme"
node per loaded theme, tagged PENDING, one dependency edge per declared
dependency, the theme map as loaded, and no events. -/
def initializeGraph (themes : List (String × ThemeNode)) : GraphManager :=
  let g :=
    themes.foldl
      (fun g p =>
        let g1 : GraphData :=
          { g with
            nodes := dictInsert g.nodes p.1
              { node_type := "theme"
                status := NodeStatus.value .pending
                data := NodePayload.themeData p.2.to_dict } }
        p.2.depends_on.foldl
          (fun g2 dep => { g2 with edges := pushEdge g2.edges dep p.1 }) g1)
      {}
  { graph := g, theme_nodes := themes, event_nodes := [] }

/-- `GraphManager._update_node_status`: updates the graph node's status tag
and its serialized payload, when the node exists. -/
def updateNodeStatus (gm : GraphManager) (node_id : String)
    (st : NodeStatus) : GraphManager :=
  match dictGet? gm.graph.nodes node_id with
  | none => gm
  | some gn =>
    { gm with
      graph :=
        { gm.graph with
          nodes := dictInsert gm.graph.nodes node_id
            { gn with status := st.value, data := gn.data.setStatus st } } }

/-- `GraphManager.add_event_node`: fails on an unknown theme id; otherwise
records the event, adds the graph node and the containment edge, appends the
event id to the theme's extracted set, increments the theme's depth, and
flips a PENDING theme to MENTIONED. -/
def addEventNode (gm : GraphManager) (event : EventNode) (theme_id : String)
    (now : Nat) : Bool × GraphManager :=
  match dictGet? gm.theme_nodes theme_id with
  | none => (false, gm)
  | some theme =>
    let gm1 : GraphManager :=
      { graph :=
          { nodes := dictInsert gm.graph.nodes event.event_id
              { node_type := "event", status := "active"
                data := NodePayload.eventData event.to_dict }
            edges := pushEdgeDedup gm.graph.edges theme_id event.event_id }
        theme_nodes := gm.theme_nodes
        event_nodes := dictInsert gm.event_nodes event.event_id event }
    let theme1 := (theme.add_extracted_event event.event_id).increment_depth
    if theme1.status = NodeStatus.pending then
      let gm2 :=
        { gm1 with
          theme_nodes := dictInsert gm1.theme_nodes theme_id (theme1.mark_mentioned now) }
      (true, updateNodeStatus gm2 theme_id NodeStatus.mentioned)
    else
      (true, { gm1 with theme_nodes := dictInsert gm1.theme_nodes theme_id theme1 })

/-- `GraphManager.update_event_depth`: fails on an unknown event id, else
stores `min(new_depth, 5)` on the event and mirrors it into the graph node's
payload. -/
def updateEventDepth (gm : GraphManager) (event_id : String)
    (new_depth : Int) : Bool × GraphManager :=
  match dictGet? gm.event_nodes event_id with
  | none => (false, gm)
  | some e =>
    let e1 := { e with depth_level := min new_depth 5 }
    let gm1 := { gm with event_nodes := dictInsert gm.event_nodes event_id e1 }
    match dictGet? gm1.graph.nodes event_id with
    | none => (true, gm1)
    | some gn =>
      (true,
        { gm1 with
          graph :=
            { gm1.graph with
              nodes := dictInsert gm1.graph.nodes event_id
                { gn with data := gn.data.setDepth e1.depth_level } } })

/-- `GraphManager.mark_theme_exhausted`: fails on an unknown theme id, else
forces the theme EXHAUSTED and updates the graph node. -/
def markThemeExhausted (gm : GraphManager) (theme_id : String) (now : Nat) :
    Bool × GraphManager :=
  match dictGet? gm.theme_nodes theme_id with
  | none => (false, gm)
  | some t =>
    let gm1 :=
      { gm with theme_nodes := dictInsert gm.theme_nodes theme_id (t.mark_exhausted now) }
    (true, updateNodeStatus gm1 theme_id NodeStatus.exhausted)

/-- `GraphManager.get_mentioned_theme_nodes`: the MENTIONED themes in map
order. -/
def getMentionedThemeNodes (gm : GraphManager) : List ThemeNode :=
  (gm.theme_nodes.map Prod.snd).filter
    (fun n => decide (n.status = NodeStatus.mentioned))

/-- The `pending` comprehension inside `get_next_candidate_theme`: PENDING
themes whose dependencies are satisfied against the live theme map, in map
order. -/
def readyPendingThemes (gm : GraphManager) : List ThemeNode :=
  (gm.theme_nodes.map Prod.snd).filter
    (fun n =>
      decide (n.status = NodeStatus.pending) &&
        n.is_ready_to_explore (some gm.theme_nodes))

/-- Python's `min(l, key=key)`: the first element attaining the least key
(`none` on the empty list, where Python raises — no caller reaches that). -/
def minByKey {α β : Type} [LinearOrder β] (key : α → β) : List α → Option α
  | [] => none
  | x :: xs =>
    some (xs.foldl (fun best a => if key a < key best then a else best) x)

/-- `GraphManager.get_next_candidate_theme`: continue the least-complete
MENTIONED theme when one exists, else the lowest-priority-number ready
PENDING theme, else nothing. `current_focus` is accepted and unused. -/
def getNextCandidateTheme (gm : GraphManager)
    (current_focus : Option String := none) : Option ThemeNode :=
  let mentioned := getMentionedThemeNodes gm
  if mentioned.isEmpty then
    let pending := readyPendingThemes gm
    if pending.isEmpty then none
    else minByKey (fun n => n.priority) pending
  else minByKey (fun n => n.get_completion_ratio) mentioned

/-- `GraphManager.reset`: clear the events and re-run the bootstrap on the
themes freshly re-loaded by the same loader. -/
def GraphManager.reset (_gm : GraphManager)
    (themes : List (String × ThemeNode)) : GraphManager :=
  initializeGraph themes

/-- Outcomes of the file-system effects of `save_checkpoint`: whether the
`mkdir` and each of the three `json.dump` writes succeed. -/
structure SaveEnv where
  mkdirOk : Bool := true
  writeGraphOk : Bool := true
  writeThemesOk : Bool := true
  writeEventsOk : Bool := true
deriving DecidableEq, Repr

/-- The per-session checkpoint files on disk after a save attempt (`none` for
a file that was not successfully written). -/
structure SavedFiles where
  graph_state : Option GraphData := none
  themes_state : Option (List (String × ThemeRecord)) := none
  events : Option (List (String × EventRecord)) := none
deriving DecidableEq, Repr

/-- `GraphManager.save_checkpoint`. The `mkdir(parents=True, exist_ok=True)`
call sits before the `try` block, so its failure propagates as an exception
(`Except.error`); every failure inside the `try` is caught and reported as
`ok false`. The successfully written files are returned alongside. -/
def saveCheckpoint (gm : GraphManager) (env : SaveEnv) :
    Except Unit Bool × SavedFiles :=
  if ¬ env.mkdirOk then (Except.error (), {})
  else if ¬ env.writeGraphOk then (Except.ok false, {})
  else
    let written1 : SavedFiles := { graph_state := some gm.graph }
    if ¬ env.writeThemesOk then (Except.ok false, written1)
    else
      let written2 :=
        { written1 with
          themes_state := some (gm.theme_nodes.map (fun p => (p.1, p.2.to_dict))) }
      if ¬ env.writeEventsOk then (Except.ok false, written2)
      else
        (Except.ok true,
          { written2 with
            events := some (gm.event_nodes.map (fun p => (p.1, p.2.to_dict))) })

/-- Parsed contents of the three checkpoint files, as seen by
`load_checkpoint`; `none` is a read or parse failure on that file. The
`fresh` function supplies the uuid-based id `EventNode.from_dict` would
generate for a record with an empty event id. -/
structure LoadEnv where
  graphFile : Option GraphData := none
  themesFile : Option (List (String × ThemeRecord)) := none
  eventsFile : Option (List (String × EventRecord)) := none
  fresh : String → String := id

/-- The theme-restoration loop of `load_checkpoint`: ids absent from the live
map are silently skipped; a record whose `status` value is missing or invalid
raises inside the loop (reported by `false`), leaving the updates already
made in place. -/
def applyThemeRecords (recs : List (String × ThemeRecord))
    (themes : List (String × ThemeNode)) : Bool × List (String × ThemeNode) :=
  match recs with
  | [] => (true, themes)
  | (tid, r) :: rest =>
    match dictGet? themes tid with
    | none => applyThemeRecords rest themes
    | some t =>
      match r.status with
      | none => (false, themes)
      | some st =>
        applyThemeRecords rest
          (dictInsert themes tid
            { t with
              status := st
              exploration_depth := r.exploration_depth.getD 0
              slots_filled := r.slots_filled.getD [] })

/-- `GraphManager.load_checkpoint`: reads and applies the graph file, then
the themes file, then the events file, each `open`/`json.load` failure being
caught and reported as `false` — with everything already applied left in
place. -/
def loadCheckpoint (gm : GraphManager) (env : LoadEnv) (now : Nat) :
    Bool × GraphManager :=
  match env.graphFile with
  | none => (false, gm)
  | some gdata =>
    let gm1 := { gm with graph := gdata }
    match env.themesFile with
    | none => (false, gm1)
    | some trecs =>
      let applied := applyThemeRecords trecs gm1.theme_nodes
      let gm2 := { gm1 with theme_nodes := applied.2 }
      if ¬ applied.1 then (false, gm2)
      else
        match env.eventsFile with
        | none => (false, gm2)
        | some erecs =>
          (true,
            { gm2 with
              event_nodes :=
                erecs.foldl
                  (fun acc p =>
                    dictInsert acc p.1 (EventNode.from_dict p.2 now (env.fresh p.1)))
                  gm2.event_nodes })

/-- One public mutating call on a `GraphManager`, with the ambient
timestamp / file-system outcomes it depends on. -/
inductive Step (catalog : Catalog) : GraphManager → GraphManager → Prop where
  | addEvent (gm : GraphManager) (e : EventNode) (tid : String) (now : Nat) :
      Step catalog gm (addEventNode gm e tid now).2
  | updateDepth (gm : GraphManager) (eid : String) (d : Int) :
      Step catalog gm (updateEventDepth gm eid d).2
  | markExhausted (gm : GraphManager) (tid : String) (now : Nat) :
      Step catalog gm (markThemeExhausted gm tid now).2
  | save (gm : GraphManager) : Step catalog gm gm
  | load (gm : GraphManager) (env : LoadEnv) (now : Nat) :
      Step catalog gm (loadCheckpoint gm env now).2
  | reset (gm : GraphManager) (now : Nat) :
      Step catalog gm (gm.reset (ThemeLoader.load catalog now))

/-- States reachable from a freshly constructed manager over the given
catalog through the public operations. -/
inductive Reachable (catalog : Catalog) : GraphManager → Prop where
  | init (now : Nat) : Reachable catalog (initializeGraph (ThemeLoader.load catalog now))
  | step {gm gm' : GraphManager} :
      Reachable catalog gm → Step catalog gm gm' → Reachable catalog gm'

theorem foldlMin_decomp {α β : Type} [LinearOrder β] (key : α → β)
    (l : List α) (b : α) :
    ∃ r pre post,
      l.foldl (fun best a => if key a < key best then a else best) b = r ∧
      b :: l = pre ++ r :: post ∧
      (∀ x ∈ pre, key r < key x) ∧
      (∀ x ∈ b :: l, key r ≤ key x) := by
  induction l generalizing b with
  | nil =>
    refine ⟨b, [], [], rfl, rfl, by simp, ?_⟩
    intro x hx
    simp at hx
    simp [hx]
  | cons a l ih =>
    obtain ⟨r, pre, post, hfold, hdecomp, hpre, hle⟩ :=
      ih (if key a < key b then a else b)
    by_cases hlt : key a < key b
    · rw [if_pos hlt] at hfold hdecomp hle
      refine ⟨r, b :: pre, post, ?_, ?_, ?_, ?_⟩
      · simpa [hlt] using hfold
      · simpa using congrArg (List.cons b) hdecomp
      · intro x hx
        rcases List.mem_cons.mp hx with h | h
        · subst h
          exact lt_of_le_of_lt (hle a (List.mem_cons_self _ _)) hlt
        · exact hpre x h
      · intro x hx
        rcases List.mem_cons.mp hx with h | h
        · subst h
          exact le_of_lt (lt_of_le_of_lt (hle a (List.mem_cons_self _ _)) hlt)
        · exact hle x h
    · rw [if_neg hlt] at hfold hdecomp hle
      have hba : key b ≤ key a := le_of_not_lt hlt
      cases pre with
      | nil =>
        have hrb : r = b := by
          have := congrArg (fun t => t.head?) hdecomp
          simpa using this.symm
        refine ⟨r, [], a :: l, ?_, ?_, by simp, ?_⟩
        · simpa [hlt] using hfold
        · simp [hrb]
        · intro x hx
          rcases List.mem_cons.mp hx with h | h
          · subst h
            simp [hrb]
          · rcases List.mem_cons.mp h with h2 | h2
            · subst h2
              rw [hrb]
              exact hba
            · exact hle x (List.mem_cons_of_mem _ h2)
      | cons c pre₂ =>
        have hcb : c = b := by
          have := congrArg (fun t => t.head?) hdecomp
          simpa using this.symm
        have hl : l = pre₂ ++ r :: post := by
          have := congrArg (fun t => t.tail) hdecomp
          simpa using this
        refine ⟨r, b :: a :: pre₂, post, ?_, ?_, ?_, ?_⟩
        · simpa [hlt] using hfold
        · simp [hl]
        · intro x hx
          have hrb : key r < key b := hpre c (by simp) |>.trans_le (by rw [hcb])
          rcases List.mem_cons.mp hx with h | h
          · subst h
            exact hrb
          · rcases List.mem_cons.mp h with h2 | h2
            · subst h2
              exact lt_of_lt_of_le hrb hba
            · exact hpre x (List.mem_cons_of_mem _ h2)
        · intro x hx
          have hrb : key r < key b := hpre c (by simp) |>.trans_le (by rw [hcb])
          rcases List.mem_cons.mp hx with h | h
          · subst h
            exact le_of_lt hrb
          · rcases List.mem_cons.mp h with h2 | h2
            · subst h2
              exact le_of_lt (lt_of_lt_of_le hrb hba)
            · exact hle x (List.mem_cons_of_mem _ h2)

theorem minByKey_decomp {α β : Type} [LinearOrder β] (key : α → β)
    (l : List α) (hne : l ≠ []) :
    ∃ r pre post,
      minByKey key l = some r ∧
      l = pre ++ r :: post ∧
      (∀ x ∈ pre, key r < key x) ∧
      (∀ x ∈ l, key r ≤ key x) := by
  cases l with
  | nil => exact absurd rfl hne
  | cons x xs =>
    obtain ⟨r, pre, post, hfold, hdecomp, hpre, hle⟩ := foldlMin_decomp key xs x
    exact ⟨r, pre, post, by simp [minByKey, hfold], hdecomp, hpre, hle⟩

theorem minByKey_mem {α β : Type} [LinearOrder β] {key : α → β} {l : List α}
    {r : α} (h : minByKey key l = some r) : r ∈ l := by
  cases l with
  | nil => simp [minByKey] at h
  | cons x xs =>
    obtain ⟨r', pre, post, hfold, hdecomp, _, _⟩ := minByKey_decomp key
      (x :: xs) (by simp)
    rw [hfold] at h
    injection h with h
    subst h
    rw [hdecomp]
    exact List.mem_append.mpr (Or.inr (List.mem_cons_self _ _))

theorem minByKey_le {α β : Type} [LinearOrder β] {key : α → β} {l : List α}
    {r : α} (h : minByKey key l = some r) : ∀ x ∈ l, key r ≤ key x := by
  cases l with
  | nil => simp [minByKey] at h
  | cons x xs =>
    obtain ⟨r', pre, post, hfold, _, _, hle⟩ := minByKey_decomp key
      (x :: xs) (by simp)
    rw [hfold] at h
    injection h with h
    subst h
    exact hle

theorem minByKey_eq_none_iff {α β : Type} [LinearOrder β] (key : α → β)
    (l : List α) : minByKey key l = none ↔ l = [] := by
  cases l <;> simp [minByKey]

theorem minByKey_eq_of_unique {α β : Type} [LinearOrder β] {key : α → β}
    {l : List α} {a : α} (hmem : a ∈ l)
    (huniq : ∀ x ∈ l, x = a ∨ key a < key x) :
    minByKey key l = some a := by
  obtain ⟨r, pre, post, hmin, hdecomp, hpre, hle⟩ := minByKey_decomp key
    l (List.ne_nil_of_mem hmem)
  have hrl : r ∈ l := minByKey_mem hmin
  rcases huniq r hrl with h | h
  · rw [hmin, h]
  · exact absurd (hle a hmem) (not_le_of_lt h)

theorem status_add_extracted_event (n : ThemeNode) (eid : String) :
    (n.add_extracted_event eid).status = n.status := by
  unfold ThemeNode.add_extracted_event
  split <;> rfl

theorem status_increment_depth (n : ThemeNode) :
    n.increment_depth.status = n.status := rfl

theorem status_mark_mentioned (n : ThemeNode) (now : Nat) :
    (n.mark_mentioned now).status =
      if n.status = NodeStatus.pending then NodeStatus.mentioned
      else n.status := by
  unfold ThemeNode.mark_mentioned
  split <;> simp_all

theorem status_mark_exhausted (n : ThemeNode) (now : Nat) :
    (n.mark_exhausted now).status = NodeStatus.exhausted := rfl

theorem mark_mentioned_of_not_pending {n : ThemeNode} (now : Nat)
    (h : n.status ≠ NodeStatus.pending) : n.mark_mentioned now = n := by
  unfold ThemeNode.mark_mentioned
  simp [h]

theorem extracted_add_extracted_event (n : ThemeNode) (eid : String) :
    (n.add_extracted_event eid).extracted_events =
      if eid ∈ n.extracted_events then n.extracted_events
      else n.extracted_events ++ [eid] := by
  unfold ThemeNode.add_extracted_event
  split <;> simp_all

theorem extracted_increment_depth (n : ThemeNode) :
    n.increment_depth.extracted_events = n.extracted_events := rfl

theorem extracted_mark_mentioned (n : ThemeNode) (now : Nat) :
    (n.mark_mentioned now).extracted_events = n.extracted_events := by
  unfold ThemeNode.mark_mentioned
  split <;> rfl

theorem extracted_mark_exhausted (n : ThemeNode) (now : Nat) :
    (n.mark_exhausted now).extracted_events = n.extracted_events := rfl

theorem depth_add_extracted_event (n : ThemeNode) (eid : String) :
    (n.add_extracted_event eid).exploration_depth = n.exploration_depth := by
  unfold ThemeNode.add_extracted_event
  split <;> rfl

theorem depth_increment_depth (n : ThemeNode) :
    n.increment_depth.exploration_depth = min (n.exploration_depth + 1) 5 := rfl

theorem depth_mark_mentioned (n : ThemeNode) (now : Nat) :
    (n.mark_mentioned now).exploration_depth = n.exploration_depth := by
  unfold ThemeNode.mark_mentioned
  split <;> rfl

theorem updateNodeStatus_theme_nodes (gm : GraphManager) (node_id : String)
    (st : NodeStatus) :
    (updateNodeStatus gm node_id st).theme_nodes = gm.theme_nodes := by
  unfold updateNodeStatus
  split <;> rfl

theorem updateNodeStatus_event_nodes (gm : GraphManager) (node_id : String)
    (st : NodeStatus) :
    (updateNodeStatus gm node_id st).event_nodes = gm.event_nodes := by
  unfold updateNodeStatus
  split <;> rfl

/-! Concrete fixtures used by the witnesses and counterexamples: a two-theme
catalog in which theme `T` (priority 3) depends on theme `X` (priority 5). -/

def tidX : String := "X"

def tidT : String := "T"

def defX : ThemeDef :=
  { theme_id := tidX, title := "chapters", description := "about X" }

def defT : ThemeDef :=
  { theme_id := tidT, title := "scenes", description := "about T"
    priority := some 3, depends_on := some [tidX] }

def catA : Catalog :=
  { domains := [("life_chapters", { themes := some [defX, defT] })] }

/-- A freshly constructed manager over `catA`. -/
def gmA : GraphManager := initializeGraph (ThemeLoader.load catA 0)

def eid1 : String := "e1"

/-- A concrete event owned by theme `T` (constructed, as the dataclass does,
through `__post_init__`). -/
def ev1 : EventNode :=
  EventNode.postInit
    { event_id := eid1, theme_id := tidT, title := "ev", description := "ev" }
    eid1

/-- `gmA` after `add_event_node(ev1, "T")`: `T` is MENTIONED although its
dependency `X` is still PENDING. -/
def gmA1 : GraphManager := (addEventNode gmA ev1 tidT 1).2

/-- C1: `get_next_candidate_theme` follows the two-phase greedy policy: with
MENTIONED themes present it returns the first one of lowest completion ratio
in theme-map insertion order; otherwise the first dependency-ready PENDING
theme of lowest priority number in insertion order; it returns `none` exactly
when neither phase has a candidate; and `current_focus` has no effect. -/
theorem claim1_two_phase_policy (gm : GraphManager) (cf : Option String) :
    (∀ cf', getNextCandidateTheme gm cf = getNextCandidateTheme gm cf') ∧
    (getNextCandidateTheme gm cf = none ↔
      getMentionedThemeNodes gm = [] ∧ readyPendingThemes gm = []) ∧
    (getMentionedThemeNodes gm ≠ [] →
      ∃ r pre post, getNextCandidateTheme gm cf = some r ∧
        getMentionedThemeNodes gm = pre ++ r :: post ∧
        (∀ x ∈ pre, r.get_completion_ratio < x.get_completion_ratio) ∧
        (∀ x ∈ getMentionedThemeNodes gm,
          r.get_completion_ratio ≤ x.get_completion_ratio)) ∧
    (getMentionedThemeNodes gm = [] → readyPendingThemes gm ≠ [] →
      ∃ r pre post, getNextCandidateTheme gm cf = some r ∧
        readyPendingThemes gm = pre ++ r :: post ∧
        (∀ x ∈ pre, r.priority < x.priority) ∧
        (∀ x ∈ readyPendingThemes gm, r.priority ≤ x.priority)) := by
  have hdef : getNextCandidateTheme gm cf =
      (if (getMentionedThemeNodes gm).isEmpty then
        (if (readyPendingThemes gm).isEmpty then none
          else minByKey (fun n => n.priority) (readyPendingThemes gm))
        else minByKey (fun n => n.get_completion_ratio)
          (getMentionedThemeNodes gm)) := rfl
  refine ⟨fun _ => rfl, ?_, ?_, ?_⟩
  · rw [hdef]
    by_cases hm : getMentionedThemeNodes gm = []
    · by_cases hp : readyPendingThemes gm = []
      · simp [hm, hp]
      · simp only [hm, List.isEmpty_nil, if_true]
        rw [if_neg (by simp [List.isEmpty_iff, hp])]
        simp [minByKey_eq_none_iff, hp, hm]
    · rw [if_neg (by simp [List.isEmpty_iff, hm])]
      simp [minByKey_eq_none_iff, hm]
  · intro hm
    obtain ⟨r, pre, post, hmin, hdecomp, hpre, hle⟩ :=
      minByKey_decomp (fun n : ThemeNode => n.get_completion_ratio)
        (getMentionedThemeNodes gm) hm
    refine ⟨r, pre, post, ?_, hdecomp, hpre, hle⟩
    rw [hdef, if_neg (by simp [List.isEmpty_iff, hm])]
    exact hmin
  · intro hm hp
    obtain ⟨r, pre, post, hmin, hdecomp, hpre, hle⟩ :=
      minByKey_decomp (fun n : ThemeNode => n.priority)
        (readyPendingThemes gm) hp
    refine ⟨r, pre, post, ?_, hdecomp, hpre, hle⟩
    rw [hdef, if_pos (by simp [List.isEmpty_iff, hm]),
      if_neg (by simp [List.isEmpty_iff, hp])]
    exact hmin

/-- Witness for C1 at the concrete manager `gmA1`, whose only MENTIONED theme
is `T`. -/
theorem claim1_two_phase_policy_witness :
    (getNextCandidateTheme gmA1 none = none ↔
      getMentionedThemeNodes gmA1 = [] ∧ readyPendingThemes gmA1 = []) ∧
    (∃ r pre post, getNextCandidateTheme gmA1 none = some r ∧
      getMentionedThemeNodes gmA1 = pre ++ r :: post ∧
      (∀ x ∈ pre, r.get_completion_ratio < x.get_completion_ratio) ∧
      (∀ x ∈ getMentionedThemeNodes gmA1,
        r.get_completion_ratio ≤ x.get_completion_ratio)) :=
  ⟨(claim1_two_phase_policy gmA1 none).2.1,
    (claim1_two_phase_policy gmA1 none).2.2.1 (by decide)⟩

/-- C2 counterexample: `gmA1` is reachable (one `add_event_node` call on a
fresh manager), theme `T` with `depends_on = ["X"]` is returned by
`get_next_candidate_theme` although `X` is still PENDING — `add_event_node`
never checks readiness, so a dependency-blocked theme that became MENTIONED
is returned while its dependency is unexhausted, contradicting the claim. -/
theorem claim2_counterexample :
    Reachable catA gmA1 ∧
    (∃ rT, getNextCandidateTheme gmA1 none = some rT ∧
      rT.theme_id = tidT ∧ rT.depends_on = [tidX]) ∧
    (∃ nX, dictGet? gmA1.theme_nodes tidX = some nX ∧
      nX.status = NodeStatus.pending) := by
  refine ⟨?_, by decide, by decide⟩
  exact (Reachable.init 0).step (Step.addEvent gmA ev1 tidT 1)

/-- C2 amended: a theme `T` with `depends_on = ["X"]` is never returned while
`T` is still PENDING and `X` is not EXHAUSTED (once `T` has been MENTIONED it
can be returned regardless of `X`); and when `X` is EXHAUSTED, no theme is
MENTIONED and `T` strictly beats every other ready PENDING theme on priority,
the next call returns `T`. -/
theorem claim2_dependency_gating_amended :
    (∀ (gm : GraphManager) (cf : Option String) (T : ThemeNode)
      (depX : String),
      T.depends_on = [depX] → T.status = NodeStatus.pending →
      (∀ nX, dictGet? gm.theme_nodes depX = some nX →
        nX.status ≠ NodeStatus.exhausted) →
      getNextCandidateTheme gm cf ≠ some T) ∧
    (∀ (gm : GraphManager) (cf : Option String) (T nX : ThemeNode)
      (depX : String),
      T.depends_on = [depX] → dictGet? gm.theme_nodes depX = some nX →
      nX.status = NodeStatus.exhausted → T.status = NodeStatus.pending →
      T ∈ gm.theme_nodes.map Prod.snd → getMentionedThemeNodes gm = [] →
      (∀ n ∈ readyPendingThemes gm, n = T ∨ T.priority < n.priority) →
      getNextCandidateTheme gm cf = some T) := by
  constructor
  · rintro gm cf T depX hdep hpend hX hres
    have hdefn : getNextCandidateTheme gm cf =
        (if (getMentionedThemeNodes gm).isEmpty then
          (if (readyPendingThemes gm).isEmpty then none
            else minByKey (fun n => n.priority) (readyPendingThemes gm))
          else minByKey (fun n => n.get_completion_ratio)
            (getMentionedThemeNodes gm)) := rfl
    by_cases hm : getMentionedThemeNodes gm = []
    · rw [hdefn, if_pos (by simp [List.isEmpty_iff, hm])] at hres
      by_cases hp : readyPendingThemes gm = []
      · rw [if_pos (by simp [List.isEmpty_iff, hp])] at hres
        exact Option.noConfusion hres
      · rw [if_neg (by simp [List.isEmpty_iff, hp])] at hres
        have hmemT := minByKey_mem hres
        have hflt := (List.mem_filter.mp hmemT).2
        simp only [Bool.and_eq_true, decide_eq_true_eq] at hflt
        have hready := hflt.2
        unfold ThemeNode.is_ready_to_explore at hready
        rw [hdep] at hready
        simp only [List.isEmpty_cons, if_false, Bool.false_eq_true,
          List.all_cons, List.all_nil, Bool.and_true] at hready
        cases hget : dictGet? gm.theme_nodes depX with
        | none => rw [hget] at hready; exact Bool.noConfusion hready
        | some d =>
          rw [hget] at hready
          simp only [decide_eq_true_eq] at hready
          exact hX d hget hready
    · rw [hdefn, if_neg (by simp [List.isEmpty_iff, hm])] at hres
      have hmemT := minByKey_mem hres
      have hflt := (List.mem_filter.mp hmemT).2
      simp only [decide_eq_true_eq] at hflt
      rw [hpend] at hflt
      exact NodeStatus.noConfusion hflt
  · rintro gm cf T nX depX hdep hgetX hXst hpend hmemvals hm huniq
    have hdefn : getNextCandidateTheme gm cf =
        (if (getMentionedThemeNodes gm).isEmpty then
          (if (readyPendingThemes gm).isEmpty then none
            else minByKey (fun n => n.priority) (readyPendingThemes gm))
          else minByKey (fun n => n.get_completion_ratio)
            (getMentionedThemeNodes gm)) := rfl
    have hready : T.is_ready_to_explore (some gm.theme_nodes) = true := by
      unfold ThemeNode.is_ready_to_explore
      rw [hdep]
      simp [hgetX, hXst]
    have hmemT : T ∈ readyPendingThemes gm := by
      unfold readyPendingThemes
      rw [List.mem_filter]
      exact ⟨hmemvals, by simp [hpend, hready]⟩
    rw [hdefn, if_pos (by simp [List.isEmpty_iff, hm]),
      if_neg (by simp [List.isEmpty_iff, List.ne_nil_of_mem hmemT])]
    exact minByKey_eq_of_unique hmemT huniq

/-- `gmA` after `mark_theme_exhausted("X")`: dependency satisfied, `T` the
only ready PENDING theme. -/
def gmA2 : GraphManager := (markThemeExhausted gmA tidX 2).2

/-- The live `T` node of `gmA2` (untouched since loading). -/
def nodeT : ThemeNode := createThemeNode defT Domain.life_chapters 0

/-- The live (exhausted) `X` node of `gmA2`. -/
def nodeX2 : ThemeNode :=
  (createThemeNode defX Domain.life_chapters 0).mark_exhausted 2

/-- Witness for C2 amended: on the fresh `gmA` the blocked `T` is not
returned; on `gmA2` (`X` exhausted) it is returned. -/
theorem claim2_dependency_gating_witness :
    getNextCandidateTheme gmA none ≠ some nodeT ∧
    getNextCandidateTheme gmA2 none = some nodeT :=
  ⟨claim2_dependency_gating_amended.1 gmA none nodeT tidX (by decide)
      (by decide) (by decide),
    claim2_dependency_gating_amended.2 gmA2 none nodeT nodeX2 tidX (by decide)
      (by decide) (by decide) (by decide) (by decide) (by decide) (by decide)⟩

/-! Fixtures for C3: five distinct events added to theme `X`, then the first
event added once more. -/

def mkEvX (eid : String) : EventNode :=
  EventNode.postInit
    { event_id := eid, theme_id := tidX, title := "ev", description := "ev" }
    eid

def aid1 : String := "a1"

def aid2 : String := "a2"

def aid3 : String := "a3"

def aid4 : String := "a4"

def aid5 : String := "a5"

def gmB1 : GraphManager := (addEventNode gmA (mkEvX aid1) tidX 1).2

def gmB2 : GraphManager := (addEventNode gmB1 (mkEvX aid2) tidX 2).2

def gmB3 : GraphManager := (addEventNode gmB2 (mkEvX aid3) tidX 3).2

def gmB4 : GraphManager := (addEventNode gmB3 (mkEvX aid4) tidX 4).2

def gmB5 : GraphManager := (addEventNode gmB4 (mkEvX aid5) tidX 5).2

/-- C3 counterexample: in the reachable state `gmB5` (five distinct events
added to theme `X`), a sixth successful `add_event_node` call re-adding the
first event leaves both the extracted-event count (dedup) and the
exploration depth (capped at 5) unchanged, not "+1" as claimed. -/
theorem claim3_counterexample :
    Reachable catA gmB5 ∧
    (addEventNode gmB5 (mkEvX aid1) tidX 6).1 = true ∧
    ((dictGet? gmB5.theme_nodes tidX).map
        (fun t => (t.extracted_events.length, t.exploration_depth)) =
      some (5, (5 : Int)) ∧
      ((dictGet? (addEventNode gmB5 (mkEvX aid1) tidX 6).2.theme_nodes
          tidX).map
        (fun t => (t.extracted_events.length, t.exploration_depth)) =
      some (5, (5 : Int)))) := by
  refine ⟨?_, by decide, by decide⟩
  have h1 : Reachable catA gmB1 :=
    (Reachable.init 0).step (Step.addEvent gmA (mkEvX aid1) tidX 1)
  have h2 : Reachable catA gmB2 :=
    h1.step (Step.addEvent gmB1 (mkEvX aid2) tidX 2)
  have h3 : Reachable catA gmB3 :=
    h2.step (Step.addEvent gmB2 (mkEvX aid3) tidX 3)
  have h4 : Reachable catA gmB4 :=
    h3.step (Step.addEvent gmB3 (mkEvX aid4) tidX 4)
  exact h4.step (Step.addEvent gmB4 (mkEvX aid5) tidX 5)

/-- C3 amended: `add_event_node` on an unknown theme id returns failure with
the whole state (hence the event collection) unchanged; on a known theme id
it succeeds and the theme's extracted-event set gains the event id unless
already present, its depth becomes `min(depth+1, 5)`, and its status flips
PENDING→MENTIONED exactly once (it never leaves MENTIONED or EXHAUSTED). -/
theorem claim3_add_event_node_amended (gm : GraphManager) (e : EventNode)
    (tid : String) (now : Nat) :
    (dictGet? gm.theme_nodes tid = none →
      addEventNode gm e tid now = (false, gm)) ∧
    (∀ t, dictGet? gm.theme_nodes tid = some t →
      (addEventNode gm e tid now).1 = true ∧
      ∃ t2, dictGet? (addEventNode gm e tid now).2.theme_nodes tid = some t2 ∧
        t2.extracted_events =
          (if e.event_id ∈ t.extracted_events then t.extracted_events
            else t.extracted_events ++ [e.event_id]) ∧
        t2.exploration_depth = min (t.exploration_depth + 1) 5 ∧
        t2.status =
          (if t.status = NodeStatus.pending then NodeStatus.mentioned
            else t.status)) := by
  constructor
  · intro hget
    unfold addEventNode
    rw [hget]
  · intro t hget
    unfold addEventNode
    rw [hget]
    simp only []
    set theme1 := (t.add_extracted_event e.event_id).increment_depth with htheme1
    have hst1 : theme1.status = t.status := by
      rw [htheme1, status_increment_depth, status_add_extracted_event]
    by_cases hpend : theme1.status = NodeStatus.pending
    · rw [if_pos hpend]
      refine ⟨rfl, theme1.mark_mentioned now, ?_, ?_, ?_, ?_⟩
      · rw [updateNodeStatus_theme_nodes]
        exact dictGet?_insert_self _ _ _
      · rw [extracted_mark_mentioned, htheme1, extracted_increment_depth,
          extracted_add_extracted_event]
      · rw [depth_mark_mentioned, htheme1, depth_increment_depth,
          depth_add_extracted_event]
      · have ht : t.status = NodeStatus.pending := hst1 ▸ hpend
        rw [status_mark_mentioned, if_pos hpend, if_pos ht]
    · rw [if_neg hpend]
      refine ⟨rfl, theme1, ?_, ?_, ?_, ?_⟩
      · exact dictGet?_insert_self _ _ _
      · rw [htheme1, extracted_increment_depth, extracted_add_extracted_event]
      · rw [htheme1, depth_increment_depth, depth_add_extracted_event]
      · rw [hst1] at hpend ⊢
        rw [if_neg hpend]

/-- Witness for C3 amended: the unknown id `"Z"` fails on `gmA`; adding `ev1`
to the known theme `T` succeeds with the stated postconditions. -/
theorem claim3_add_event_node_witness :
    addEventNode gmA ev1 "Z" 1 = (false, gmA) ∧
    ((addEventNode gmA ev1 tidT 1).1 = true ∧
      ∃ t2, dictGet? (addEventNode gmA ev1 tidT 1).2.theme_nodes tidT =
          some t2 ∧
        t2.extracted_events =
          (if ev1.event_id ∈ nodeT.extracted_events then nodeT.extracted_events
            else nodeT.extracted_events ++ [ev1.event_id]) ∧
        t2.exploration_depth = min (nodeT.exploration_depth + 1) 5 ∧
        t2.status =
          (if nodeT.status = NodeStatus.pending then NodeStatus.mentioned
            else nodeT.status)) :=
  ⟨(claim3_add_event_node_amended gmA ev1 "Z" 1).1 (by decide),
    (claim3_add_event_node_amended gmA ev1 tidT 1).2 nodeT (by decide)⟩

theorem mem_dictInsert {α : Type} {m : List (String × α)} {k : String}
    {v : α} {q : String × α} (h : q ∈ dictInsert m k v) :
    q = (k, v) ∨ q ∈ m := by
  induction m with
  | nil => simpa [dictInsert] using h
  | cons p rest ih =>
    obtain ⟨a, b⟩ := p
    by_cases hp : a = k
    · rw [dictInsert] at h
      simp only [hp, if_pos] at h
      rcases List.mem_cons.mp h with h1 | h1
      · exact Or.inl h1
      · exact Or.inr (List.mem_cons_of_mem _ h1)
    · rw [dictInsert] at h
      simp only [hp, ite_false, if_neg, not_false_iff] at h
      rcases List.mem_cons.mp h with h1 | h1
      · exact Or.inr (h1 ▸ List.mem_cons_self _ _)
      · rcases ih h1 with h2 | h2
        · exact Or.inl h2
        · exact Or.inr (List.mem_cons_of_mem _ h2)

theorem dictKeys_insert_of_get {α : Type} {m : List (String × α)}
    {k : String} {v0 : α} (v : α) (h : dictGet? m k = some v0) :
    dictKeys (dictInsert m k v) = dictKeys m := by
  induction m with
  | nil => simp [dictGet?] at h
  | cons p rest ih =>
    obtain ⟨a, b⟩ := p
    by_cases hp : a = k
    · simp [dictInsert, dictKeys, hp]
    · rw [dictGet?] at h
      simp only [hp, ite_false, if_neg, not_false_iff] at h
      have hih := ih h
      simp only [dictKeys] at hih
      simp [dictInsert, dictKeys, hp, hih]

/-- Ids of the events whose `theme_id` field references the theme as owner. -/
def ownedEventIds (gm : GraphManager) (tid : String) : List String :=
  (gm.event_nodes.filter (fun p => decide (p.2.theme_id = tid))).map Prod.fst

/-- The bidirectional-consistency invariant of the claim (plus uniqueness of
event-map keys, which the claim's "collection keyed by id" presupposes):
every theme's `extracted_events` is exactly the set of event ids owning it. -/
def ConsistentState (gm : GraphManager) : Prop :=
  (dictKeys gm.event_nodes).Nodup ∧
  ∀ tid t, dictGet? gm.theme_nodes tid = some t →
    ∀ eid, eid ∈ t.extracted_events ↔ eid ∈ ownedEventIds gm tid

theorem mem_ownedEventIds {gm : GraphManager} {tid eid : String} :
    eid ∈ ownedEventIds gm tid ↔
      ∃ e, (eid, e) ∈ gm.event_nodes ∧ e.theme_id = tid := by
  unfold ownedEventIds
  rw [List.mem_map]
  constructor
  · rintro ⟨⟨a, b⟩, hmem, hfst⟩
    obtain ⟨hm, hp⟩ := List.mem_filter.mp hmem
    simp only [decide_eq_true_eq] at hp
    cases hfst
    exact ⟨b, hm, hp⟩
  · rintro ⟨e, hmem, hth⟩
    exact ⟨(eid, e), List.mem_filter.mpr ⟨hmem, by simpa using hth⟩, rfl⟩

theorem mem_ownedEventIds_get {gm : GraphManager} {tid eid : String}
    (hnd : (dictKeys gm.event_nodes).Nodup) :
    eid ∈ ownedEventIds gm tid ↔
      ∃ e, dictGet? gm.event_nodes eid = some e ∧ e.theme_id = tid := by
  rw [mem_ownedEventIds]
  constructor
  · rintro ⟨e, hmem, hth⟩
    exact ⟨e, dictGet?_of_mem_nodup hnd hmem, hth⟩
  · rintro ⟨e, hget, hth⟩
    exact ⟨e, dictGet?_mem hget, hth⟩

theorem createThemeNode_extracted (td : ThemeDef) (dom : Domain) (now : Nat) :
    (createThemeNode td dom now).extracted_events = [] := rfl

theorem load_extracted_empty (c : Catalog) (now : Nat) :
    ∀ p ∈ ThemeLoader.load c now, p.2.extracted_events = [] := by
  have hinner : ∀ (tds : List ThemeDef) (dom : Domain)
      (acc : List (String × ThemeNode)),
      (∀ p ∈ acc, p.2.extracted_events = []) →
      ∀ p ∈ tds.foldl
        (fun acc2 td => dictInsert acc2 td.theme_id (createThemeNode td dom now))
        acc, p.2.extracted_events = [] := by
    intro tds
    induction tds with
    | nil => intro dom acc hacc; simpa using hacc
    | cons td rest ih =>
      intro dom acc hacc
      rw [List.foldl_cons]
      refine ih dom _ ?_
      intro p hp
      rcases mem_dictInsert hp with h | h
      · rw [h]
        exact createThemeNode_extracted td dom now
      · exact hacc p h
  unfold ThemeLoader.load
  generalize hstart : ([] : List (String × ThemeNode)) = start
  have hstart2 : ∀ p ∈ start, p.2.extracted_events = [] := by
    rw [← hstart]; simp
  clear hstart
  induction c.domains generalizing start with
  | nil => simpa using hstart2
  | cons d rest ih =>
    rw [List.foldl_cons]
    cases hdom : Domain.fromString? d.1 with
    | none => exact ih _ hstart2
    | some dom => exact ih _ (hinner _ dom start hstart2)

theorem initializeGraph_theme_nodes (themes : List (String × ThemeNode)) :
    (initializeGraph themes).theme_nodes = themes := rfl

theorem initializeGraph_event_nodes (themes : List (String × ThemeNode)) :
    (initializeGraph themes).event_nodes = [] := rfl

theorem consistent_initializeGraph {themes : List (String × ThemeNode)}
    (h : ∀ p ∈ themes, p.2.extracted_events = []) :
    ConsistentState (initializeGraph themes) := by
  refine ⟨by simp [initializeGraph_event_nodes, dictKeys], ?_⟩
  intro tid t hget eid
  rw [initializeGraph_theme_nodes] at hget
  have ht : t.extracted_events = [] := h (tid, t) (dictGet?_mem hget)
  rw [ht]
  simp [ownedEventIds, initializeGraph_event_nodes]

theorem consistent_of_fields (gm1 : GraphManager) {gm2 : GraphManager}
    (hth : gm2.theme_nodes = gm1.theme_nodes)
    (hev : gm2.event_nodes = gm1.event_nodes)
    (h : ConsistentState gm1) : ConsistentState gm2 := by
  unfold ConsistentState ownedEventIds at h ⊢
  rw [hth, hev]
  exact h

theorem consistent_insert_event {gm gm2 : GraphManager} {e : EventNode}
    {tid : String} {t : ThemeNode} (tF : ThemeNode)
    (hnd : (dictKeys gm.event_nodes).Nodup)
    (hcons : ∀ tid' t', dictGet? gm.theme_nodes tid' = some t' →
      ∀ eid, eid ∈ t'.extracted_events ↔ eid ∈ ownedEventIds gm tid')
    (hget : dictGet? gm.theme_nodes tid = some t)
    (hown : e.theme_id = tid)
    (hprev : ∀ e0, dictGet? gm.event_nodes e.event_id = some e0 →
      e0.theme_id = tid)
    (hextr : tF.extracted_events =
      (if e.event_id ∈ t.extracted_events then t.extracted_events
        else t.extracted_events ++ [e.event_id]))
    (hth : gm2.theme_nodes = dictInsert gm.theme_nodes tid tF)
    (hev : gm2.event_nodes = dictInsert gm.event_nodes e.event_id e) :
    ConsistentState gm2 := by
  have hnd2 : (dictKeys gm2.event_nodes).Nodup := by
    rw [hev]
    cases hie : dictGet? gm.event_nodes e.event_id with
    | none => exact dictKeys_nodup_insert hnd hie
    | some e0 => rw [dictKeys_insert_of_get e hie]; exact hnd
  refine ⟨hnd2, ?_⟩
  intro tid' t' hget' eid
  rw [mem_ownedEventIds_get hnd2, hev]
  by_cases htid : tid' = tid
  · subst htid
    rw [hth, dictGet?_insert_self] at hget'
    injection hget' with hget'
    subst hget'
    by_cases heid : eid = e.event_id
    · subst heid
      refine iff_of_true ?_ ⟨e, dictGet?_insert_self _ _ _, hown⟩
      rw [hextr]
      split
      · assumption
      · exact List.mem_append.mpr (Or.inr (List.mem_cons_self _ _))
    · have hlhs : eid ∈ tF.extracted_events ↔ eid ∈ t.extracted_events := by
        rw [hextr]
        split
        · exact Iff.rfl
        · rw [List.mem_append]
          simp [heid]
      rw [hlhs]
      have hrhs :
          (∃ ev, dictGet? (dictInsert gm.event_nodes e.event_id e) eid =
            some ev ∧ ev.theme_id = tid') ↔
          (∃ ev, dictGet? gm.event_nodes eid = some ev ∧
            ev.theme_id = tid') := by
        rw [dictGet?_insert_ne _ _ heid]
      rw [hrhs, ← mem_ownedEventIds_get hnd]
      exact hcons tid' t hget eid
  · rw [hth, dictGet?_insert_ne _ _ htid] at hget'
    by_cases heid : eid = e.event_id
    · subst heid
      refine iff_of_false ?_ ?_
      · intro hmem
        have h1 := (hcons tid' t' hget' e.event_id).mp hmem
        obtain ⟨e0, hgete0, hth0⟩ := (mem_ownedEventIds_get hnd).mp h1
        exact htid ((hprev e0 hgete0) ▸ hth0.symm ▸ rfl)
      · rintro ⟨ev, hgete, hthev⟩
        rw [dictGet?_insert_self] at hgete
        injection hgete with hgete
        subst hgete
        exact htid (hown ▸ hthev.symm ▸ rfl)
    · rw [dictGet?_insert_ne _ _ heid, ← mem_ownedEventIds_get hnd]
      exact hcons tid' t' hget' eid

theorem consistent_addEventNode {gm : GraphManager} {e : EventNode}
    {tid : String} (now : Nat) (h : ConsistentState gm)
    (hown : e.theme_id = tid)
    (hprev : ∀ e0, dictGet? gm.event_nodes e.event_id = some e0 →
      e0.theme_id = tid) :
    ConsistentState (addEventNode gm e tid now).2 := by
  obtain ⟨hnd, hcons⟩ := h
  unfold addEventNode
  cases hget : dictGet? gm.theme_nodes tid with
  | none => exact ⟨hnd, hcons⟩
  | some t =>
    simp only []
    by_cases hpend :
        ((t.add_extracted_event e.event_id).increment_depth).status =
          NodeStatus.pending
    · rw [if_pos hpend]
      exact consistent_insert_event
        (((t.add_extracted_event e.event_id).increment_depth).mark_mentioned now)
        hnd hcons hget hown hprev
        (by rw [extracted_mark_mentioned, extracted_increment_depth,
          extracted_add_extracted_event])
        (by rw [updateNodeStatus_theme_nodes])
        (by rw [updateNodeStatus_event_nodes])
    · rw [if_neg hpend]
      exact consistent_insert_event
        ((t.add_extracted_event e.event_id).increment_depth)
        hnd hcons hget hown hprev
        (by rw [extracted_increment_depth, extracted_add_extracted_event])
        rfl rfl

theorem consistent_updateEventDepth {gm : GraphManager} (eid : String)
    (d : Int) (h : ConsistentState gm) :
    ConsistentState (updateEventDepth gm eid d).2 := by
  obtain ⟨hnd, hcons⟩ := h
  unfold updateEventDepth
  cases hget : dictGet? gm.event_nodes eid with
  | none => exact ⟨hnd, hcons⟩
  | some e =>
    simp only []
    have hkey : ∀ gm2 : GraphManager,
        gm2.theme_nodes = gm.theme_nodes →
        gm2.event_nodes = dictInsert gm.event_nodes eid
          { e with depth_level := min d 5 } →
        ConsistentState gm2 := by
      intro gm2 hth hev
      have hnd2 : (dictKeys gm2.event_nodes).Nodup := by
        rw [hev, dictKeys_insert_of_get _ hget]
        exact hnd
      refine ⟨hnd2, ?_⟩
      intro tid t hgett eid'
      rw [hth] at hgett
      rw [mem_ownedEventIds_get hnd2, hev]
      by_cases heid : eid' = eid
      · subst heid
        rw [dictGet?_insert_self]
        have : (∃ ev, dictGet? gm.event_nodes eid' = some ev ∧
            ev.theme_id = tid) ↔ e.theme_id = tid := by
          rw [hget]
          constructor
          · rintro ⟨ev, hev2, hth2⟩
            injection hev2 with hev2
            exact hev2 ▸ hth2
          · intro hth2
            exact ⟨e, rfl, hth2⟩
        rw [hcons tid t hgett eid', mem_ownedEventIds_get hnd, this]
        constructor
        · rintro hth2
          exact ⟨_, rfl, hth2⟩
        · rintro ⟨ev, hev2, hth2⟩
          injection hev2 with hev2
          subst hev2
          exact hth2
      · rw [dictGet?_insert_ne _ _ heid, ← mem_ownedEventIds_get hnd]
        exact hcons tid t hgett eid'
    cases hgn : dictGet? gm.graph.nodes eid with
    | none => exact hkey _ rfl rfl
    | some gn => exact hkey _ rfl rfl

theorem consistent_markThemeExhausted {gm : GraphManager} (tid : String)
    (now : Nat) (h : ConsistentState gm) :
    ConsistentState (markThemeExhausted gm tid now).2 := by
  obtain ⟨hnd, hcons⟩ := h
  unfold markThemeExhausted
  cases hget : dictGet? gm.theme_nodes tid with
  | none => exact ⟨hnd, hcons⟩
  | some t =>
    simp only []
    refine consistent_of_fields
      { gm with
        theme_nodes := dictInsert gm.theme_nodes tid (t.mark_exhausted now) }
      (updateNodeStatus_theme_nodes _ _ _) (updateNodeStatus_event_nodes _ _ _)
      ⟨hnd, ?_⟩
    intro tid' t' hget' eid
    by_cases htid : tid' = tid
    · subst htid
      rw [dictGet?_insert_self] at hget'
      injection hget' with hget'
      subst hget'
      rw [extracted_mark_exhausted]
      exact hcons tid' t hget eid
    · rw [dictGet?_insert_ne _ _ htid] at hget'
      exact hcons tid' t' hget' eid

theorem consistent_reset (gm : GraphManager) (c : Catalog) (now : Nat) :
    ConsistentState (gm.reset (ThemeLoader.load c now)) :=
  consistent_initializeGraph (load_extracted_empty c now)

/-- The public operations restricted as the amended C4 requires: an
`add_event_node` call must pass an event owned by the target theme whose id,
if already recorded, belongs to that same theme; `load_checkpoint` is
excluded (it restores events without restoring `extracted_events`). -/
inductive ConsStep (catalog : Catalog) : GraphManager → GraphManager → Prop where
  | addEvent (gm : GraphManager) (e : EventNode) (tid : String) (now : Nat)
      (hown : e.theme_id = tid)
      (hprev : ∀ e0, dictGet? gm.event_nodes e.event_id = some e0 →
        e0.theme_id = tid) :
      ConsStep catalog gm (addEventNode gm e tid now).2
  | updateDepth (gm : GraphManager) (eid : String) (d : Int) :
      ConsStep catalog gm (updateEventDepth gm eid d).2
  | markExhausted (gm : GraphManager) (tid : String) (now : Nat) :
      ConsStep catalog gm (markThemeExhausted gm tid now).2
  | save (gm : GraphManager) : ConsStep catalog gm gm
  | reset (gm : GraphManager) (now : Nat) :
      ConsStep catalog gm (gm.reset (ThemeLoader.load catalog now))

/-- Reachability under the restricted operations. -/
inductive ConsReachable (catalog : Catalog) : GraphManager → Prop where
  | init (now : Nat) :
      ConsReachable catalog (initializeGraph (ThemeLoader.load catalog now))
  | step {gm gm' : GraphManager} :
      ConsReachable catalog gm → ConsStep catalog gm gm' →
      ConsReachable catalog gm'

/-! Fixtures for the C4 counterexample: an event whose own `theme_id` names
`X` added under theme id `T`, and a checkpoint restore bringing in an event
without its owner's extracted list. -/

def bid1 : String := "b1"

def evBad : EventNode :=
  EventNode.postInit
    { event_id := bid1, theme_id := tidX, title := "ev", description := "ev" }
    bid1

def gmBad : GraphManager := (addEventNode gmA evBad tidT 1).2

def recBad : EventRecord :=
  { event_id := bid1, theme_id := tidX, title := "ev", description := "ev" }

def envBad : LoadEnv :=
  { graphFile := some gmA.graph, themesFile := some []
    eventsFile := some [(bid1, recBad)] }

def gmLoadBad : GraphManager := (loadCheckpoint gmA envBad 0).2

/-- C4 counterexample: two reachable states violate bidirectional
consistency. In `gmBad`, a public `add_event_node(evBad, "T")` call — the
method never compares `evBad.theme_id` with the argument — leaves `"b1"` in
`T`'s extracted set while the stored event cites `X` as owner; in
`gmLoadBad`, a successful `load_checkpoint` restores an event owned by `X`
without restoring `X`'s extracted set. -/
theorem claim4_counterexample :
    (Reachable catA gmBad ∧
      (dictGet? gmBad.theme_nodes tidT).map ThemeNode.extracted_events =
        some [bid1] ∧
      (dictGet? gmBad.event_nodes bid1).map EventNode.theme_id = some tidX ∧
      ownedEventIds gmBad tidT = []) ∧
    (Reachable catA gmLoadBad ∧
      (loadCheckpoint gmA envBad 0).1 = true ∧
      (dictGet? gmLoadBad.theme_nodes tidX).map ThemeNode.extracted_events =
        some [] ∧
      ownedEventIds gmLoadBad tidX = [bid1]) := by
  refine ⟨⟨?_, by decide, by decide, by decide⟩, ?_, by decide, by decide,
    by decide⟩
  · exact (Reachable.init 0).step (Step.addEvent gmA evBad tidT 1)
  · exact (Reachable.init 0).step (Step.load gmA envBad 0)

/-- C4 amended: bidirectional consistency (each theme's `extracted_events`
equals the ids of the events citing it as owner) holds in every state
reachable through the public operations, provided each `add_event_node` call
passes an event whose `theme_id` equals the target theme id and does not
reuse an event id across themes, and `load_checkpoint` is not used;
`add_event_node` with a mismatched owner and `load_checkpoint` can break
it. -/
theorem claim4_bidirectional_consistency_amended (catalog : Catalog)
    (gm : GraphManager) (h : ConsReachable catalog gm) :
    ConsistentState gm := by
  induction h with
  | init now => exact consistent_initializeGraph (load_extracted_empty catalog now)
  | step _ hs ih =>
    cases hs with
    | addEvent e tid now hown hprev =>
      exact consistent_addEventNode now ih hown hprev
    | updateDepth eid d => exact consistent_updateEventDepth eid d ih
    | markExhausted tid now => exact consistent_markThemeExhausted tid now ih
    | save => exact ih
    | reset now => exact consistent_reset _ catalog now

/-- Witness for C4 amended: the state `gmA1` (one well-owned event added) is
consistent. -/
theorem claim4_bidirectional_consistency_witness : ConsistentState gmA1 :=
  claim4_bidirectional_consistency_amended catA gmA1
    ((ConsReachable.init 0).step
      (ConsStep.addEvent gmA ev1 tidT 1 (by decide)
        (by
          intro e0 h
          rw [show dictGet? gmA.event_nodes ev1.event_id = none by decide] at h
          exact Option.noConfusion h)))

/-- Position of a status in the PENDING → MENTIONED → EXHAUSTED lattice. -/
def statusRank : NodeStatus → Nat
  | .pending => 0
  | .mentioned => 1
  | .exhausted => 2

/-- The public mutating operations other than `load_checkpoint` and `reset`
(which rebuild or overwrite theme state wholesale). -/
inductive InSessionStep : GraphManager → GraphManager → Prop where
  | addEvent (gm : GraphManager) (e : EventNode) (tid : String) (now : Nat) :
      InSessionStep gm (addEventNode gm e tid now).2
  | updateDepth (gm : GraphManager) (eid : String) (d : Int) :
      InSessionStep gm (updateEventDepth gm eid d).2
  | markExhausted (gm : GraphManager) (tid : String) (now : Nat) :
      InSessionStep gm (markThemeExhausted gm tid now).2
  | save (gm : GraphManager) : InSessionStep gm gm

theorem updateEventDepth_theme_nodes (gm : GraphManager) (eid : String)
    (d : Int) : (updateEventDepth gm eid d).2.theme_nodes = gm.theme_nodes := by
  unfold updateEventDepth
  cases dictGet? gm.event_nodes eid with
  | none => rfl
  | some e =>
    simp only []
    cases dictGet? gm.graph.nodes eid with
    | none => rfl
    | some gn => rfl

/-! Fixtures for the C5 counterexample: a checkpoint record putting the
exhausted `X` back to PENDING, and a reset. -/

def recXpending : ThemeRecord :=
  { theme_id := tidX, domain := Domain.life_chapters, title := "chapters"
    description := "about X", status := some NodeStatus.pending }

def envC5 : LoadEnv :=
  { graphFile := some gmA.graph, themesFile := some [(tidX, recXpending)]
    eventsFile := some [] }

def gmC5 : GraphManager := (loadCheckpoint gmA2 envC5 3).2

def gmReset5 : GraphManager := gmA2.reset (ThemeLoader.load catA 3)

/-- C5 counterexample: in the reachable state `gmA2` theme `X` is EXHAUSTED;
one further public operation — a `load_checkpoint` whose themes record says
"pending", or a `reset` — moves `X` back to PENDING, so status is not
monotonic over sequences of the public operations. -/
theorem claim5_counterexample :
    Reachable catA gmA2 ∧
    (dictGet? gmA2.theme_nodes tidX).map ThemeNode.status =
      some NodeStatus.exhausted ∧
    (Reachable catA gmC5 ∧
      (dictGet? gmC5.theme_nodes tidX).map ThemeNode.status =
        some NodeStatus.pending) ∧
    (Reachable catA gmReset5 ∧
      (dictGet? gmReset5.theme_nodes tidX).map ThemeNode.status =
        some NodeStatus.pending) := by
  have h2 : Reachable catA gmA2 :=
    (Reachable.init 0).step (Step.markExhausted gmA tidX 2)
  refine ⟨h2, by decide, ⟨?_, by decide⟩, ⟨?_, by decide⟩⟩
  · exact h2.step (Step.load gmA2 envC5 3)
  · exact h2.step (Step.reset gmA2 3)

/-- C5 amended: along every operation other than `load_checkpoint` and
`reset`, each theme's status only moves forward in
PENDING → MENTIONED → EXHAUSTED (in particular EXHAUSTED is terminal), and
`mark_mentioned` is a no-op on a MENTIONED or EXHAUSTED theme;
`load_checkpoint` (which writes whatever status the record holds) and
`reset` (which rebuilds fresh PENDING nodes) can move a status backward. -/
theorem claim5_status_monotonic_amended :
    (∀ gm gm', InSessionStep gm gm' →
      ∀ tid t t', dictGet? gm.theme_nodes tid = some t →
        dictGet? gm'.theme_nodes tid = some t' →
        statusRank t.status ≤ statusRank t'.status ∧
        (t.status = NodeStatus.exhausted →
          t'.status = NodeStatus.exhausted)) ∧
    (∀ (n : ThemeNode) (now : Nat), n.status ≠ NodeStatus.pending →
      n.mark_mentioned now = n) := by
  constructor
  · intro gm gm' hstep tid t t' hget hget'
    cases hstep with
    | addEvent e tid0 now =>
      revert hget'
      unfold addEventNode
      cases hget0 : dictGet? gm.theme_nodes tid0 with
      | none =>
        intro hget'
        rw [hget] at hget'
        injection hget' with hget'
        simp [hget']
      | some theme =>
        simp only []
        by_cases hpend :
            ((theme.add_extracted_event e.event_id).increment_depth).status =
              NodeStatus.pending
        · rw [if_pos hpend]
          rw [updateNodeStatus_theme_nodes]
          intro hget'
          by_cases htid : tid = tid0
          · subst htid
            rw [hget] at hget0
            injection hget0 with hget0
            subst hget0
            rw [dictGet?_insert_self] at hget'
            injection hget' with hget'
            subst hget'
            have ht : t.status = NodeStatus.pending := by
              rw [status_increment_depth, status_add_extracted_event] at hpend
              exact hpend
            rw [status_mark_mentioned, if_pos hpend, ht]
            exact ⟨by simp [statusRank], fun hcon => NodeStatus.noConfusion hcon⟩
          · rw [dictGet?_insert_ne _ _ htid, hget] at hget'
            injection hget' with hget'
            simp [hget']
        · rw [if_neg hpend]
          intro hget'
          by_cases htid : tid = tid0
          · subst htid
            rw [hget] at hget0
            injection hget0 with hget0
            subst hget0
            rw [dictGet?_insert_self] at hget'
            injection hget' with hget'
            subst hget'
            rw [status_increment_depth, status_add_extracted_event]
            exact ⟨le_refl _, fun h => h⟩
          · rw [dictGet?_insert_ne _ _ htid, hget] at hget'
            injection hget' with hget'
            simp [hget']
    | updateDepth eid d =>
      rw [updateEventDepth_theme_nodes, hget] at hget'
      injection hget' with hget'
      simp [hget']
    | markExhausted tid0 now =>
      revert hget'
      unfold markThemeExhausted
      cases hget0 : dictGet? gm.theme_nodes tid0 with
      | none =>
        intro hget'
        rw [hget] at hget'
        injection hget' with hget'
        simp [hget']
      | some t0 =>
        simp only []
        rw [updateNodeStatus_theme_nodes]
        intro hget'
        by_cases htid : tid = tid0
        · subst htid
          rw [hget] at hget0
          injection hget0 with hget0
          subst hget0
          rw [dictGet?_insert_self] at hget'
          injection hget' with hget'
          subst hget'
          rw [status_mark_exhausted]
          exact ⟨by cases t.status <;> simp [statusRank], fun _ => rfl⟩
        · rw [dictGet?_insert_ne _ _ htid, hget] at hget'
          injection hget' with hget'
          simp [hget']
    | save =>
      rw [hget] at hget'
      injection hget' with hget'
      simp [hget']
  · intro n now h
    exact mark_mentioned_of_not_pending now h

/-- The `T` node of `gmA1` (mentioned with one extracted event). -/
def nodeT1 : ThemeNode :=
  ((nodeT.add_extracted_event eid1).increment_depth).mark_mentioned 1

/-- Witness for C5 amended: the `add_event_node` step from `gmA` to `gmA1`
moves `T` forward (PENDING to MENTIONED), and `mark_mentioned` is a no-op on
the exhausted `X` node. -/
theorem claim5_status_monotonic_witness :
    (statusRank nodeT.status ≤ statusRank nodeT1.status ∧
      (nodeT.status = NodeStatus.exhausted →
        nodeT1.status = NodeStatus.exhausted)) ∧
    nodeX2.mark_mentioned 9 = nodeX2 :=
  ⟨claim5_status_monotonic_amended.1 gmA gmA1
      (InSessionStep.addEvent gmA ev1 tidT 1) tidT nodeT nodeT1 (by decide)
      (by decide),
    claim5_status_monotonic_amended.2 nodeX2 9 (by decide)⟩

/-- C6 counterexample: in the reachable state `gmA1` holding event `e1` at
depth 0, the successful call `update_event_depth("e1", -1)` stores −1: the
code computes `min(new_depth, 5)`, clamping from above only, so the stored
depth leaves `[0, 5]` for a negative argument. -/
theorem claim6_counterexample :
    Reachable catA gmA1 ∧
    (updateEventDepth gmA1 eid1 (-1)).1 = true ∧
    (dictGet? (updateEventDepth gmA1 eid1 (-1)).2.event_nodes eid1).map
      EventNode.depth_level = some (-1) := by
  refine ⟨(Reachable.init 0).step (Step.addEvent gmA ev1 tidT 1), by decide,
    by decide⟩

/-- C6 amended: `update_event_depth` fails exactly on an unknown event id and
otherwise stores `min(new_depth, 5)` — never above 5, and within `[0, 5]`
whenever the argument is non-negative (a negative argument is stored as is);
`increment_depth` computes `min(depth + 1, 5)` and keeps `[0, 5]`
invariant. -/
theorem claim6_depth_clamp_amended (gm : GraphManager) (eid : String)
    (d : Int) :
    (dictGet? gm.event_nodes eid = none →
      updateEventDepth gm eid d = (false, gm)) ∧
    (∀ e, dictGet? gm.event_nodes eid = some e →
      (updateEventDepth gm eid d).1 = true ∧
      ∃ e2, dictGet? (updateEventDepth gm eid d).2.event_nodes eid = some e2 ∧
        e2.depth_level = min d 5 ∧ e2.depth_level ≤ 5 ∧
        (0 ≤ d → 0 ≤ e2.depth_level ∧ e2.depth_level ≤ 5)) ∧
    (∀ ev : EventNode,
      ev.increment_depth.depth_level = min (ev.depth_level + 1) 5 ∧
      (0 ≤ ev.depth_level ∧ ev.depth_level ≤ 5 →
        0 ≤ ev.increment_depth.depth_level ∧
          ev.increment_depth.depth_level ≤ 5)) := by
  refine ⟨?_, ?_, ?_⟩
  · intro hget
    unfold updateEventDepth
    rw [hget]
  · intro e hget
    unfold updateEventDepth
    rw [hget]
    simp only []
    cases hgn : dictGet? gm.graph.nodes eid with
    | none =>
      refine ⟨rfl, { e with depth_level := min d 5 },
        dictGet?_insert_self _ _ _, rfl, min_le_right _ _, ?_⟩
      intro hd
      exact ⟨le_min hd (by norm_num), min_le_right _ _⟩
    | some gn =>
      refine ⟨rfl, { e with depth_level := min d 5 },
        dictGet?_insert_self _ _ _, rfl, min_le_right _ _, ?_⟩
      intro hd
      exact ⟨le_min hd (by norm_num), min_le_right _ _⟩
  · intro ev
    refine ⟨rfl, ?_⟩
    rintro ⟨h0, _⟩
    constructor
    · exact le_min (by linarith) (by norm_num)
    · exact min_le_right _ _

/-- Witness for C6 amended at `gmA1`: the unknown id `"Z"` fails; updating
`e1` to 3 succeeds with the clamped postconditions; `increment_depth` on
`ev1` behaves as stated. -/
theorem claim6_depth_clamp_witness :
    updateEventDepth gmA1 "Z" 3 = (false, gmA1) ∧
    ((updateEventDepth gmA1 eid1 3).1 = true ∧
      ∃ e2, dictGet? (updateEventDepth gmA1 eid1 3).2.event_nodes eid1 =
          some e2 ∧
        e2.depth_level = min 3 5 ∧ e2.depth_level ≤ 5 ∧
        (0 ≤ (3 : Int) → 0 ≤ e2.depth_level ∧ e2.depth_level ≤ 5)) ∧
    (ev1.increment_depth.depth_level = min (ev1.depth_level + 1) 5 ∧
      (0 ≤ ev1.depth_level ∧ ev1.depth_level ≤ 5 →
        0 ≤ ev1.increment_depth.depth_level ∧
          ev1.increment_depth.depth_level ≤ 5)) :=
  ⟨(claim6_depth_clamp_amended gmA1 "Z" 3).1 (by decide),
    (claim6_depth_clamp_amended gmA1 eid1 3).2.1 ev1 (by decide),
    (claim6_depth_clamp_amended gmA1 eid1 3).2.2 ev1⟩

/-- A load environment whose graph file parses but whose themes file fails
to read. -/
def env7 : LoadEnv :=
  { graphFile := some {}, themesFile := none, eventsFile := none }

/-- C7 counterexample: `load_checkpoint` on `gmA` with a readable graph file
and a missing themes file returns failure, yet the in-memory graph has
already been replaced — the restore is not atomic on failure. -/
theorem claim7_counterexample :
    (loadCheckpoint gmA env7 0).1 = false ∧
    (loadCheckpoint gmA env7 0).2 ≠ gmA ∧
    (loadCheckpoint gmA env7 0).2.graph ≠ gmA.graph := by
  refine ⟨by decide, ?_, by decide⟩
  intro h
  have := congrArg GraphManager.graph h
  revert this
  decide

/-- C7 amended: the in-memory state is unchanged only when the failure hits
the first record (the graph file itself is missing or unparseable); once the
graph record has been read, it is applied even if a later record fails, so a
failed load can leave the graph replaced (and earlier theme records
applied). -/
theorem claim7_load_checkpoint_amended (gm : GraphManager) (env : LoadEnv)
    (now : Nat) :
    (env.graphFile = none → loadCheckpoint gm env now = (false, gm)) ∧
    (∀ gdata, env.graphFile = some gdata →
      (loadCheckpoint gm env now).2.graph = gdata) := by
  constructor
  · intro hg
    unfold loadCheckpoint
    rw [hg]
  · intro gdata hg
    unfold loadCheckpoint
    rw [hg]
    simp only []
    cases env.themesFile with
    | none => rfl
    | some trecs =>
      simp only []
      by_cases happ : (applyThemeRecords trecs gm.theme_nodes).1 = true
      · rw [if_neg (by simp [happ])]
        cases env.eventsFile with
        | none => rfl
        | some erecs => rfl
      · rw [if_pos (by simpa using happ)]

/-- Witness for C7 amended: a fully unreadable checkpoint leaves `gmA`
intact; `env7`'s graph record is applied. -/
theorem claim7_load_checkpoint_witness :
    loadCheckpoint gmA ({} : LoadEnv) 0 = (false, gmA) ∧
    (loadCheckpoint gmA env7 0).2.graph = ({} : GraphData) :=
  ⟨(claim7_load_checkpoint_amended gmA {} 0).1 rfl,
    (claim7_load_checkpoint_amended gmA env7 0).2 {} rfl⟩

/-- An environment in which creating the checkpoint directory fails (for
example the path exists as a regular file, or permission is denied). -/
def envMkdirFail : SaveEnv := { mkdirOk := false }

/-- C8 counterexample: `output_dir.mkdir(parents=True, exist_ok=True)` sits
before the `try` block of `save_checkpoint`, so a directory-creation failure
propagates as an exception instead of a boolean `False`. -/
theorem claim8_counterexample :
    (saveCheckpoint gmA envMkdirFail).1 = Except.error () := rfl

/-- C8 amended: once the directory-creation call succeeds, no exception
escapes: every write failure inside the `try` is reported as `False`, the
call returns `True` exactly when all three writes succeed, and on success
the three records on disk are the serialized graph, themes and events;
a failure of the `mkdir` itself, which is outside the `try`, propagates. -/
theorem claim8_save_checkpoint_amended (gm : GraphManager) (env : SaveEnv)
    (henv : env.mkdirOk = true) :
    (saveCheckpoint gm env).1 =
      Except.ok (env.writeGraphOk && env.writeThemesOk && env.writeEventsOk) ∧
    (env.writeGraphOk = true → env.writeThemesOk = true →
      env.writeEventsOk = true →
      (saveCheckpoint gm env).2 =
        { graph_state := some gm.graph
          themes_state := some (gm.theme_nodes.map fun p => (p.1, p.2.to_dict))
          events := some (gm.event_nodes.map fun p => (p.1, p.2.to_dict)) }) := by
  cases hg : env.writeGraphOk <;> cases ht : env.writeThemesOk <;>
    cases he : env.writeEventsOk <;>
      simp [saveCheckpoint, henv, hg, ht, he]

/-- Witness for C8 amended at `gmA` with every file-system step succeeding. -/
theorem claim8_save_checkpoint_witness :
    (saveCheckpoint gmA ({} : SaveEnv)).1 = Except.ok true ∧
    (saveCheckpoint gmA ({} : SaveEnv)).2 =
      { graph_state := some gmA.graph
        themes_state := some (gmA.theme_nodes.map fun p => (p.1, p.2.to_dict))
        events := some (gmA.event_nodes.map fun p => (p.1, p.2.to_dict)) } :=
  ⟨(claim8_save_checkpoint_amended gmA {} rfl).1,
    (claim8_save_checkpoint_amended gmA {} rfl).2 rfl rfl rfl⟩

/-- A node with a non-trivial seed-question cursor and extracted-event set. -/
def nC9 : ThemeNode :=
  { theme_id := "q", domain := Domain.life_chapters, title := "q"
    description := "q", seed_questions := ["s0", "s1", "s2"]
    current_question_index := 2, extracted_events := ["e9"] }

/-- C9 counterexample: `to_dict` serializes neither `current_question_index`
nor the `extracted_events` list (only its count), so
`from_dict(to_dict(n))` resets the cursor to 0 and the extracted set to
empty — the round trip loses both fields the claim lists. -/
theorem claim9_counterexample :
    nC9.current_question_index = 2 ∧
    (ThemeNode.from_dict nC9.to_dict 0).current_question_index = 0 ∧
    nC9.extracted_events = ["e9"] ∧
    (ThemeNode.from_dict nC9.to_dict 0).extracted_events = [] ∧
    nC9.to_dict.extracted_events_count = some 1 := by decide

theorem from_dict_fields (r : ThemeRecord) (now : Nat) :
    (ThemeNode.from_dict r now).seed_questions = r.seed_questions.getD [] ∧
    (ThemeNode.from_dict r now).status = r.status.getD NodeStatus.pending ∧
    (ThemeNode.from_dict r now).exploration_depth =
      r.exploration_depth.getD 0 ∧
    (ThemeNode.from_dict r now).slots_filled = r.slots_filled.getD [] ∧
    (ThemeNode.from_dict r now).priority = r.priority.getD 5 ∧
    (ThemeNode.from_dict r now).depends_on = r.depends_on.getD [] ∧
    (ThemeNode.from_dict r now).current_question_index = 0 ∧
    (ThemeNode.from_dict r now).created_at = r.created_at.getD now := by
  unfold ThemeNode.from_dict
  cases r.extracted_events with
  | none => exact ⟨rfl, rfl, rfl, rfl, rfl, rfl, rfl, rfl⟩
  | some evs =>
    by_cases h : evs.isEmpty <;>
      simp [h]

/-- C9 amended: the round trip `from_dict(to_dict(n))` reproduces
`theme_id`, `domain`, `title`, `description`, `seed_questions`, `status`,
`exploration_depth`, `slots_filled`, `priority`, `depends_on` and the
timestamps, and `to_dict` additionally exposes the computed completion
ratio — but resets `current_question_index` to 0 and `extracted_events` to
empty, since `to_dict` serializes only the event count and no cursor;
`from_dict` on a record missing the optional fields supplies the documented
defaults (status PENDING, depth 0, priority 5, empty `depends_on`, empty
`slots_filled`) without failing. -/
theorem claim9_theme_round_trip_amended (n : ThemeNode) (now : Nat)
    (r : ThemeRecord) :
    ((ThemeNode.from_dict n.to_dict now).theme_id = n.theme_id ∧
      (ThemeNode.from_dict n.to_dict now).domain = n.domain ∧
      (ThemeNode.from_dict n.to_dict now).title = n.title ∧
      (ThemeNode.from_dict n.to_dict now).description = n.description ∧
      (ThemeNode.from_dict n.to_dict now).seed_questions = n.seed_questions ∧
      (ThemeNode.from_dict n.to_dict now).status = n.status ∧
      (ThemeNode.from_dict n.to_dict now).exploration_depth =
        n.exploration_depth ∧
      (ThemeNode.from_dict n.to_dict now).slots_filled = n.slots_filled ∧
      (ThemeNode.from_dict n.to_dict now).priority = n.priority ∧
      (ThemeNode.from_dict n.to_dict now).depends_on = n.depends_on ∧
      (ThemeNode.from_dict n.to_dict now).created_at = n.created_at ∧
      (ThemeNode.from_dict n.to_dict now).first_mentioned_at =
        n.first_mentioned_at ∧
      (ThemeNode.from_dict n.to_dict now).exhausted_at = n.exhausted_at ∧
      n.to_dict.completion_ratio = some n.get_completion_ratio ∧
      (ThemeNode.from_dict n.to_dict now).current_question_index = 0 ∧
      (ThemeNode.from_dict n.to_dict now).extracted_events = []) ∧
    ((r.status = none →
        (ThemeNode.from_dict r now).status = NodeStatus.pending) ∧
      (r.exploration_depth = none →
        (ThemeNode.from_dict r now).exploration_depth = 0) ∧
      (r.priority = none → (ThemeNode.from_dict r now).priority = 5) ∧
      (r.depends_on = none → (ThemeNode.from_dict r now).depends_on = []) ∧
      (r.slots_filled = none → (ThemeNode.from_dict r now).slots_filled = []) ∧
      (r.seed_questions = none →
        (ThemeNode.from_dict r now).seed_questions = [])) := by
  obtain ⟨hsq, hst, hdep, hsl, hpr, hdo, hcq, hca⟩ := from_dict_fields r now
  refine ⟨⟨rfl, rfl, rfl, rfl, rfl, rfl, rfl, rfl, rfl, rfl, rfl, rfl, rfl,
    rfl, rfl, rfl⟩, ?_, ?_, ?_, ?_, ?_, ?_⟩
  · intro h; rw [hst, h]; rfl
  · intro h; rw [hdep, h]; rfl
  · intro h; rw [hpr, h]; rfl
  · intro h; rw [hdo, h]; rfl
  · intro h; rw [hsl, h]; rfl
  · intro h; rw [hsq, h]; rfl

/-- A record carrying only the required identity fields. -/
def recMin : ThemeRecord :=
  { theme_id := "m", domain := Domain.key_scenes, title := "m"
    description := "m" }

/-- Witness for C9 amended: the defaults on the minimal record `recMin`. -/
theorem claim9_theme_round_trip_witness :
    (ThemeNode.from_dict recMin 0).status = NodeStatus.pending ∧
    (ThemeNode.from_dict recMin 0).exploration_depth = 0 ∧
    (ThemeNode.from_dict recMin 0).priority = 5 ∧
    (ThemeNode.from_dict recMin 0).depends_on = [] ∧
    (ThemeNode.from_dict recMin 0).slots_filled = [] ∧
    (ThemeNode.from_dict nC9.to_dict 0).status = nC9.status :=
  ⟨(claim9_theme_round_trip_amended nC9 0 recMin).2.1 rfl,
    (claim9_theme_round_trip_amended nC9 0 recMin).2.2.1 rfl,
    (claim9_theme_round_trip_amended nC9 0 recMin).2.2.2.1 rfl,
    (claim9_theme_round_trip_amended nC9 0 recMin).2.2.2.2.1 rfl,
    (claim9_theme_round_trip_amended nC9 0 recMin).2.2.2.2.2.1 rfl,
    (claim9_theme_round_trip_amended nC9 0 recMin).1.2.2.2.2.2.1⟩

/-- One insertion of a processable definition into the loader's map. -/
def loadStep (now : Nat) (acc : List (String × ThemeNode))
    (p : Domain × ThemeDef) : List (String × ThemeNode) :=
  dictInsert acc p.2.theme_id (createThemeNode p.2 p.1 now)

/-- Latest-match accumulator over definitions sharing a theme id. -/
def pickLast (tid : String) (o : Option (Domain × ThemeDef))
    (p : Domain × ThemeDef) : Option (Domain × ThemeDef) :=
  if p.2.theme_id = tid then some p else o

/-- The last processable definition carrying the given theme id. -/
def lastDef? (c : Catalog) (tid : String) : Option (Domain × ThemeDef) :=
  (catalogDefs c).foldl (pickLast tid) none

theorem defStep_append (ds : List (String × DomainData))
    (init : List (Domain × ThemeDef)) :
    ds.foldl defStep init = init ++ ds.foldl defStep [] := by
  induction ds generalizing init with
  | nil => simp
  | cons d ds ih =>
    rw [List.foldl_cons, List.foldl_cons, ih (defStep init d),
      ih (defStep [] d)]
    have hstep : defStep init d = init ++ defStep [] d := by
      unfold defStep
      cases Domain.fromString? d.1 with
      | none => simp
      | some dom => simp
    rw [hstep, List.append_assoc]

theorem load_eq_defs (c : Catalog) (now : Nat) :
    ThemeLoader.load c now = (catalogDefs c).foldl (loadStep now) [] := by
  suffices h : ∀ (ds : List (String × DomainData))
      (acc : List (String × ThemeNode)),
      ds.foldl
        (fun acc p =>
          match Domain.fromString? p.1 with
          | none => acc
          | some dom =>
            (p.2.themes.getD []).foldl
              (fun acc2 td =>
                dictInsert acc2 td.theme_id (createThemeNode td dom now))
              acc)
        acc
      = (ds.foldl defStep []).foldl (loadStep now) acc by
    exact h c.domains []
  intro ds
  induction ds with
  | nil => intro acc; rfl
  | cons d ds ih =>
    intro acc
    rw [List.foldl_cons, List.foldl_cons, ih, defStep_append ds (defStep [] d),
      List.foldl_append]
    have hstep : ∀ acc0 : List (String × ThemeNode),
        (match Domain.fromString? d.1 with
          | none => acc0
          | some dom =>
            (d.2.themes.getD []).foldl
              (fun acc2 td =>
                dictInsert acc2 td.theme_id (createThemeNode td dom now))
              acc0)
        = (defStep [] d).foldl (loadStep now) acc0 := by
      intro acc0
      unfold defStep
      cases Domain.fromString? d.1 with
      | none => rfl
      | some dom =>
        simp only [List.nil_append, List.foldl_map]
        rfl
    rw [hstep]

theorem pickLast_shift (tid : String) (defs : List (Domain × ThemeDef))
    (o : Option (Domain × ThemeDef)) :
    defs.foldl (pickLast tid) o =
      (match defs.foldl (pickLast tid) none with
        | some q => some q
        | none => o) := by
  induction defs generalizing o with
  | nil => simp
  | cons p defs ih =>
    rw [List.foldl_cons, List.foldl_cons, ih (pickLast tid o p),
      ih (pickLast tid none p)]
    cases hfold : defs.foldl (pickLast tid) none with
    | some q => rfl
    | none =>
      unfold pickLast
      by_cases hp : p.2.theme_id = tid <;> simp [hp]

theorem lookup_foldl_loadStep (now : Nat) (tid : String)
    (defs : List (Domain × ThemeDef)) :
    ∀ acc : List (String × ThemeNode),
    dictGet? (defs.foldl (loadStep now) acc) tid =
      (match defs.foldl (pickLast tid) none with
        | some p => some (createThemeNode p.2 p.1 now)
        | none => dictGet? acc tid) := by
  induction defs with
  | nil => intro acc; rfl
  | cons p defs ih =>
    intro acc
    rw [List.foldl_cons, List.foldl_cons, ih (loadStep now acc p),
      pickLast_shift tid defs (pickLast tid none p)]
    cases hfold : defs.foldl (pickLast tid) none with
    | some q => rfl
    | none =>
      by_cases hp : p.2.theme_id = tid
      · rw [show pickLast tid none p = some p by simp [pickLast, hp]]
        show dictGet?
          (dictInsert acc p.2.theme_id (createThemeNode p.2 p.1 now)) tid =
          some (createThemeNode p.2 p.1 now)
        rw [hp, dictGet?_insert_self]
      · rw [show pickLast tid none p = none by simp [pickLast, hp]]
        show dictGet?
          (dictInsert acc p.2.theme_id (createThemeNode p.2 p.1 now)) tid =
          dictGet? acc tid
        exact dictGet?_insert_ne _ _ (fun h => hp h.symm)

theorem nodup_foldl_loadStep (now : Nat) (defs : List (Domain × ThemeDef)) :
    ∀ acc : List (String × ThemeNode), (dictKeys acc).Nodup →
    (dictKeys (defs.foldl (loadStep now) acc)).Nodup := by
  induction defs with
  | nil => intro acc h; exact h
  | cons p defs ih =>
    intro acc h
    rw [List.foldl_cons]
    refine ih _ ?_
    unfold loadStep
    cases hk : dictGet? acc p.2.theme_id with
    | some v => rw [dictKeys_insert_of_get _ hk]; exact h
    | none => exact dictKeys_nodup_insert h hk

theorem dictInsert_length_le {α : Type} (m : List (String × α)) (k : String)
    (v : α) : (dictInsert m k v).length ≤ m.length + 1 := by
  induction m with
  | nil => simp [dictInsert]
  | cons p rest ih =>
    obtain ⟨a, b⟩ := p
    by_cases hp : a = k
    · simp [dictInsert, hp]
    · simp only [dictInsert, hp, ite_false, if_neg, not_false_iff,
        List.length_cons]
      omega

theorem length_foldl_loadStep (now : Nat) (defs : List (Domain × ThemeDef)) :
    ∀ acc : List (String × ThemeNode),
    (defs.foldl (loadStep now) acc).length ≤ acc.length + defs.length := by
  induction defs with
  | nil => intro acc; simp
  | cons p defs ih =>
    intro acc
    rw [List.foldl_cons]
    calc (defs.foldl (loadStep now) (loadStep now acc p)).length
        ≤ (loadStep now acc p).length + defs.length := ih _
      _ ≤ (acc.length + 1) + defs.length :=
          Nat.add_le_add_right (dictInsert_length_le _ _ _) _
      _ = acc.length + (defs.length + 1) := by omega
      _ = acc.length + (p :: defs).length := by simp

/-! Fixtures for C10: a catalog holding two definitions that share the theme
id `"D"`, in two different (resolvable) domains. -/

def tidD : String := "D"

def defD1 : ThemeDef :=
  { theme_id := tidD, title := "first", description := "first"
    priority := some 1 }

def defD2 : ThemeDef :=
  { theme_id := tidD, title := "second", description := "second"
    priority := some 2 }

def catDup : Catalog :=
  { domains :=
      [("life_chapters", { themes := some [defD1] }),
        ("key_scenes", { themes := some [defD2] })] }

/-- C10: `ThemeLoader.load` stores nodes keyed by theme id with plain
insert-overwrite, so a duplicated id silently keeps only the definition
processed last: the lookup of any id yields the node built from the last
processable definition carrying it, the returned map has pairwise-distinct
keys and never more entries than there are processable definitions, and on
the concrete two-definition collision `catDup` it returns a single entry
built from the second definition. -/
theorem claim10_theme_loader_last_wins :
    (∀ (c : Catalog) (now : Nat) (tid : String),
      dictGet? (ThemeLoader.load c now) tid =
        (lastDef? c tid).map (fun p => createThemeNode p.2 p.1 now)) ∧
    (∀ (c : Catalog) (now : Nat),
      (dictKeys (ThemeLoader.load c now)).Nodup ∧
      (ThemeLoader.load c now).length ≤ (catalogDefs c).length) ∧
    ((catalogDefs catDup).length = 2 ∧
      (ThemeLoader.load catDup 0).length = 1 ∧
      dictGet? (ThemeLoader.load catDup 0) tidD =
        some (createThemeNode defD2 Domain.key_scenes 0)) := by
  refine ⟨?_, ?_, by decide, by decide, by decide⟩
  · intro c now tid
    rw [load_eq_defs, lookup_foldl_loadStep]
    unfold lastDef?
    cases (catalogDefs c).foldl (pickLast tid) none with
    | some p => rfl
    | none => rfl
  · intro c now
    constructor
    · rw [load_eq_defs]
      exact nodup_foldl_loadStep now (catalogDefs c) [] (by simp [dictKeys])
    · rw [load_eq_defs]
      simpa using length_foldl_loadStep now (catalogDefs c) []

/-- Witness for C10: the general last-wins lookup evaluated on the concrete
collision catalog. -/
theorem claim10_theme_loader_last_wins_witness :
    dictGet? (ThemeLoader.load catDup 0) tidD =
      (lastDef? catDup tidD).map (fun p => createThemeNode p.2 p.1 0) :=
  claim10_theme_loader_last_wins.1 catDup 0 tidD

end NarrativePlanner
